import Mathlib

/-!
Verification of the issue-tracking data layer (`src/issue_tracker.py`).

The SQLite-backed store is shallowly embedded: a `Store` holds the rows of
the `issues` and `comments` tables, the auto-increment counter for comment
ids, and an abstract monotone clock standing for `datetime.now()` (isoformat
timestamps compare chronologically, so they are modelled as naturals).
Each public method of `IssueTracker` becomes a function on `Store`.
Python/SQLite exceptions (unbindable parameter types, a `SUM` overflowing
SQLite's 64-bit integers) are modelled by `Option`: a `none` result means
the statement raised before committing, so the store is unchanged.
Arithmetic the program performs in IEEE binary64 floating point (the
progress percentage of `get_cycle_analytics`) is embedded exactly, as
correctly rounded operations on the underlying rationals.
-/

namespace IssueTracker

/-! ### JSON serialization

`create_issue` and `update_issue` persist the `assignees` / `labels` lists
with `json.dumps`, and `get_issues` reads them back with `json.loads`.
`jsonDumps` models CPython's `json.dumps` (default options, `ensure_ascii`)
on a list of strings: every character outside printable ASCII is written as
a `\uXXXX` escape (a surrogate pair above U+FFFF), `"` and `\` are
backslash-escaped, and the five control characters with short names use
them.  `jsonLoads` models `json.loads` restricted to arrays of strings. -/

def hexDigitChar (n : Nat) : Char :=
  match n with
  | 0 => '0' | 1 => '1' | 2 => '2' | 3 => '3' | 4 => '4'
  | 5 => '5' | 6 => '6' | 7 => '7' | 8 => '8' | 9 => '9'
  | 10 => 'a' | 11 => 'b' | 12 => 'c' | 13 => 'd' | 14 => 'e'
  | _ => 'f'

def hex4 (n : Nat) : List Char :=
  [hexDigitChar (n / 4096 % 16), hexDigitChar (n / 256 % 16),
   hexDigitChar (n / 16 % 16), hexDigitChar (n % 16)]

def escapeChar (c : Char) : List Char :=
  let n := c.toNat
  if n = 34 then ['\\', '"']
  else if n = 92 then ['\\', '\\']
  else if n = 8 then ['\\', 'b']
  else if n = 9 then ['\\', 't']
  else if n = 10 then ['\\', 'n']
  else if n = 12 then ['\\', 'f']
  else if n = 13 then ['\\', 'r']
  else if 32 ≤ n ∧ n ≤ 126 then [c]
  else if n < 65536 then '\\' :: 'u' :: hex4 n
  else ('\\' :: 'u' :: hex4 (55296 + (n - 65536) / 1024)) ++
       ('\\' :: 'u' :: hex4 (56320 + (n - 65536) % 1024))

def encodeString (s : String) : String :=
  ⟨'"' :: s.data.flatMap escapeChar ++ ['"']⟩

def jsonDumps (l : List String) : String :=
  "[" ++ String.intercalate ", " (l.map encodeString) ++ "]"

def hexVal (c : Char) : Option Nat :=
  let n := c.toNat
  if 48 ≤ n ∧ n ≤ 57 then some (n - 48)
  else if 97 ≤ n ∧ n ≤ 102 then some (n - 87)
  else if 65 ≤ n ∧ n ≤ 70 then some (n - 55)
  else none

/-- Four hex digits of a `\uXXXX` escape (either case, as accepted by
`json.loads`). -/
def parseHex4 : List Char → Option (Nat × List Char)
  | a :: b :: c :: d :: rest =>
    (match hexVal a, hexVal b, hexVal c, hexVal d with
     | some va, some vb, some vc, some vd =>
       some (va * 4096 + vb * 256 + vc * 16 + vd, rest)
     | _, _, _, _ => none)
  | _ => none

/-- Scan the body of a JSON string (the opening quote already consumed),
appending decoded characters to `acc`; returns the decoded characters and
the input remaining after the closing quote.  Unescaped control characters
are rejected (`json.loads` default `strict=True`), and a `\uXXXX` escape in
the surrogate range must form a valid pair (a lone surrogate is not a Lean
`Char`; CPython would keep it, but no `json.dumps` output contains one).
The fuel argument is a termination device only: every step consumes at
least one input character, so `input length + 1` fuel can never run out. -/
def parseStringAux : Nat → List Char → List Char → Option (List Char × List Char)
  | 0, _, _ => none
  | fuel + 1, acc, cs =>
    match cs with
    | '"' :: rest => some (acc, rest)
    | '\\' :: esc :: rest =>
      (match esc with
       | 'u' =>
         (match parseHex4 rest with
          | some (n, rest2) =>
            if 55296 ≤ n ∧ n < 56320 then
              match rest2 with
              | '\\' :: 'u' :: rest3 =>
                (match parseHex4 rest3 with
                 | some (m, rest4) =>
                   if 56320 ≤ m ∧ m < 57344 then
                     parseStringAux fuel
                       (acc ++ [Char.ofNat (65536 + (n - 55296) * 1024 + (m - 56320))]) rest4
                   else none
                 | none => none)
              | _ => none
            else if n < 55296 ∨ 57343 < n then
              parseStringAux fuel (acc ++ [Char.ofNat n]) rest2
            else none
          | none => none)
       | '"' => parseStringAux fuel (acc ++ ['"']) rest
       | '\\' => parseStringAux fuel (acc ++ ['\\']) rest
       | '/' => parseStringAux fuel (acc ++ ['/']) rest
       | 'b' => parseStringAux fuel (acc ++ [Char.ofNat 8]) rest
       | 't' => parseStringAux fuel (acc ++ [Char.ofNat 9]) rest
       | 'n' => parseStringAux fuel (acc ++ [Char.ofNat 10]) rest
       | 'f' => parseStringAux fuel (acc ++ [Char.ofNat 12]) rest
       | 'r' => parseStringAux fuel (acc ++ [Char.ofNat 13]) rest
       | _ => none)
    | c :: rest => if c.toNat < 32 then none else parseStringAux fuel (acc ++ [c]) rest
    | [] => none

/-- JSON whitespace, as accepted between tokens by `json.loads`. -/
def isJsonWs (c : Char) : Bool :=
  c = ' ' || c = '\t' || c = '\n' || c = '\r'

def skipWs : List Char → List Char
  | c :: rest => if isJsonWs c then skipWs rest else c :: rest
  | [] => []

/-- Item loop of the JSON array parser, positioned at the start of a value
(whitespace already skipped).  The fuel argument is a termination device
only: each iteration consumes at least the item's opening quote and closing
quote or comma, so `input length + 1` fuel can never run out. -/
def parseItemsAux : Nat → List String → List Char → Option (List String × List Char)
  | 0, _, _ => none
  | fuel + 1, acc, cs =>
    match cs with
    | '"' :: rest =>
      (match parseStringAux (rest.length + 1) [] rest with
       | some (s, rest2) =>
         (match skipWs rest2 with
          | ']' :: rest3 => some (acc ++ [String.mk s], rest3)
          | ',' :: rest3 => parseItemsAux fuel (acc ++ [String.mk s]) (skipWs rest3)
          | _ => none)
       | none => none)
    | _ => none

/-- Body of a JSON array, the opening `[` already consumed: empty array, or
the item loop, then nothing but trailing whitespace may remain. -/
def jsonLoadsArr (rest : List Char) : Option (List String) :=
  match skipWs rest with
  | ']' :: rest2 => if (skipWs rest2).isEmpty then some [] else none
  | rest2 =>
    (match parseItemsAux (rest2.length + 1) [] rest2 with
     | some (l, rest3) => if (skipWs rest3).isEmpty then some l else none
     | none => none)

/-- Model of `json.loads` restricted to JSON arrays of strings: any other
well-formed JSON document (or ill-formed input) yields `none`, standing for
the `TypeError`/`JSONDecodeError` paths never reached by well-formed stores. -/
def jsonLoads (s : String) : Option (List String) :=
  match skipWs s.data with
  | '[' :: rest => jsonLoadsArr rest
  | _ => none

/-! ### SQLite `LIKE`

`get_issues` filters assignees/labels with `assignees LIKE ?` bound to
`"%" + filter + "%"`.  SQLite's default `LIKE` (no `ESCAPE`, default
`case_sensitive_like=OFF`) compares characters case-insensitively for the
ASCII range only, and treats `%` (any sequence) and `_` (any single
character) in the pattern as wildcards. -/

def asciiLower (c : Char) : Char :=
  if 65 ≤ c.toNat ∧ c.toNat ≤ 90 then Char.ofNat (c.toNat + 32) else c

def likeCharEq (p c : Char) : Bool :=
  asciiLower p = asciiLower c

def suffixesOf : List Char → List (List Char)
  | [] => [[]]
  | c :: cs => (c :: cs) :: suffixesOf cs

def likeMatch : List Char → List Char → Bool
  | [], s => s.isEmpty
  | '%' :: ps, s => (suffixesOf s).any fun t => likeMatch ps t
  | '_' :: ps, s =>
    (match s with
     | [] => false
     | _ :: cs => likeMatch ps cs)
  | p :: ps, s =>
    (match s with
     | [] => false
     | c :: cs => likeCharEq p c && likeMatch ps cs)

def sqliteLike (pattern text : String) : Bool :=
  likeMatch pattern.data text.data

/-- The spec's claimed filter semantics, from its words: "matches if the
filter string appears anywhere in the serialized form" — plain
(case-sensitive) contiguous-substring containment.  Kept separate from
`sqliteLike` so the two can be compared. -/
def specSubstrContains (haystack needle : String) : Bool :=
  (suffixesOf haystack.data).any fun t => needle.data.isPrefixOf t

/-! ### Data model

Rows of the `issues` and `comments` tables, at the schema's level:
`assignees`/`labels` hold the serialized JSON text exactly as stored.
Timestamps (`datetime.now().isoformat()` strings, which compare
chronologically) are abstracted to naturals drawn from the store's clock. -/

structure IssueRow where
  id : String
  workspace_id : String
  project_id : String
  sequence_id : Nat
  title : String
  description : String
  type : String
  status : String
  priority : String
  assignees : String
  labels : String
  cycle_id : Option String
  module_id : Option String
  created_by : Option String
  created_at : Nat
  updated_at : Nat
  due_date : Option Nat
  estimate_points : Option Int
  link_count : Nat
  attachment_count : Nat
  comment_count : Nat
deriving DecidableEq, Repr

structure CommentRow where
  id : Nat
  issue_id : String
  user : String
  body : String
  created_at : Nat
deriving DecidableEq, Repr

/-- The persistent store: the two tables the verified operations touch,
the `AUTOINCREMENT` counter for comment ids, and the abstract clock
(each `datetime.now()` call reads it; an operation that read the clock
leaves it strictly advanced, timestamps being microsecond-precision). -/
structure Store where
  issues : List IssueRow
  comments : List CommentRow
  nextCommentId : Nat
  clock : Nat
deriving DecidableEq, Repr

def emptyStore : Store := { issues := [], comments := [], nextCommentId := 1, clock := 0 }

/-- `SELECT MAX(sequence_id) FROM issues WHERE project_id = ?`, with the
`or 0` applied to the NULL result of an empty scan. -/
def maxSeq (st : Store) (pid : String) : Nat :=
  st.issues.foldl (fun m r => if r.project_id = pid then max m r.sequence_id else m) 0

/-- `create_issue`: fresh opaque id supplied by the caller (standing for
`uuid.uuid4()`), per-project sequence number `max + 1`, JSON-serialized
lists, status defaulted by the schema to `"backlog"`, both timestamps set
to the same `now`. -/
def createIssue (st : Store) (newId pid title descr issueType priority : String)
    (assignees labels : List String) : String × Store :=
  let sequenceId := maxSeq st pid + 1
  let now := st.clock
  let row : IssueRow :=
    { id := newId, workspace_id := "default", project_id := pid,
      sequence_id := sequenceId, title := title, description := descr,
      type := issueType, status := "backlog", priority := priority,
      assignees := jsonDumps assignees, labels := jsonDumps labels,
      cycle_id := none, module_id := none, created_by := none,
      created_at := now, updated_at := now, due_date := none,
      estimate_points := none, link_count := 0, attachment_count := 0,
      comment_count := 0 }
  (newId, { st with issues := st.issues ++ [row], clock := st.clock + 1 })

/-- A Python value passed as a keyword argument to `update_issue` /
`bulk_update`.  Times stand for isoformat strings produced from the clock. -/
inductive PyVal where
  | str (s : String)
  | int (n : Int)
  | list (l : List String)
  | time (t : Nat)
  | none
deriving DecidableEq, Repr

/-- `json.dumps` on a keyword value (`TypeError`, hence `none`, on a
datetime). -/
def jsonDumpsVal : PyVal → Option String
  | .list l => some (jsonDumps l)
  | .str s => some (encodeString s)
  | .int n => some (toString n)
  | .none => some "null"
  | .time _ => Option.none

def updateAllowedFields : List String :=
  ["title", "description", "status", "priority", "assignees",
   "labels", "cycle_id", "module_id", "due_date", "estimate_points"]

def bulkAllowedFields : List String :=
  ["title", "description", "status", "priority", "assignees",
   "labels", "cycle_id", "module_id"]

/-- `updates[field] = json.dumps(updates[field])` for the two list-valued
columns; every other pair passes through unchanged. -/
def convertListField (kv : String × PyVal) : Option (String × PyVal) :=
  if kv.1 = "assignees" ∨ kv.1 = "labels" then
    match jsonDumpsVal kv.2 with
    | some s => some (kv.1, .str s)
    | Option.none => Option.none
  else some kv

/-- One `column = ?` assignment of the generated `SET` clause.  The model
keeps columns at their schema types, so a value of the wrong shape for its
column is rejected (`none`); the verified operations only ever bind values
of the matching shape. -/
def setField (r : IssueRow) (k : String) (v : PyVal) : Option IssueRow :=
  if k = "title" then
    match v with
    | .str s => some { r with title := s }
    | _ => none
  else if k = "description" then
    match v with
    | .str s => some { r with description := s }
    | _ => none
  else if k = "status" then
    match v with
    | .str s => some { r with status := s }
    | _ => none
  else if k = "priority" then
    match v with
    | .str s => some { r with priority := s }
    | _ => none
  else if k = "assignees" then
    match v with
    | .str s => some { r with assignees := s }
    | _ => none
  else if k = "labels" then
    match v with
    | .str s => some { r with labels := s }
    | _ => none
  else if k = "cycle_id" then
    match v with
    | .str s => some { r with cycle_id := some s }
    | .none => some { r with cycle_id := Option.none }
    | _ => none
  else if k = "module_id" then
    match v with
    | .str s => some { r with module_id := some s }
    | .none => some { r with module_id := Option.none }
    | _ => none
  else if k = "due_date" then
    match v with
    | .time t => some { r with due_date := some t }
    | .none => some { r with due_date := Option.none }
    | _ => none
  else if k = "estimate_points" then
    match v with
    | .int n => some { r with estimate_points := some n }
    | .none => some { r with estimate_points := Option.none }
    | _ => none
  else if k = "updated_at" then
    match v with
    | .time t => some { r with updated_at := t }
    | _ => none
  else none

/-- The whole `SET` clause applied to one row, assignments in clause order. -/
def applyKwargs (l : List (String × PyVal)) (r : IssueRow) : Option IssueRow :=
  l.foldlM (fun r kv => setField r kv.1 kv.2) r

/-- `update_issue`: filter kwargs to the allow-list, return `False` with no
write when nothing survives, otherwise serialize list fields, append the
`updated_at = now` assignment, run one `UPDATE ... WHERE id = ?`, and
return `True` regardless of how many rows matched. -/
def updateIssue (st : Store) (issueId : String) (kwargs : List (String × PyVal)) :
    Option (Bool × Store) :=
  let updates := kwargs.filter fun kv => updateAllowedFields.contains kv.1
  if updates.isEmpty then some (false, st)
  else
    match updates.mapM convertListField with
    | Option.none => Option.none
    | some conv =>
      let withTs := conv ++ [("updated_at", PyVal.time st.clock)]
      match st.issues.mapM
          (fun r => if r.id = issueId then applyKwargs withTs r else some r) with
      | Option.none => Option.none
      | some issues => some (true, { st with issues := issues, clock := st.clock + 1 })

/-- `bulk_update`: empty id list short-circuits to 0 before any filtering;
otherwise the narrower allow-list is applied and the statement's
`rowcount` — the number of rows matched by `id IN (...)` — is returned. -/
def bulkUpdate (st : Store) (issueIds : List String) (kwargs : List (String × PyVal)) :
    Option (Nat × Store) :=
  if issueIds.isEmpty then some (0, st)
  else
    let updates := kwargs.filter fun kv => bulkAllowedFields.contains kv.1
    if updates.isEmpty then some (0, st)
    else
      match updates.mapM convertListField with
      | Option.none => Option.none
      | some conv =>
        let withTs := conv ++ [("updated_at", PyVal.time st.clock)]
        match st.issues.mapM
            (fun r => if issueIds.contains r.id then applyKwargs withTs r else some r) with
        | Option.none => Option.none
        | some issues =>
          let affected := (st.issues.filter fun r => issueIds.contains r.id).length
          some (affected, { st with issues := issues, clock := st.clock + 1 })

/-- `add_to_cycle`: unconditional `UPDATE issues SET cycle_id = ?`, always
`True`. -/
def addToCycle (st : Store) (issueId cycleId : String) : Bool × Store :=
  (true,
    { st with
      issues := st.issues.map fun r =>
        if r.id = issueId then { r with cycle_id := some cycleId } else r })

/-- `add_to_module`, symmetric to `add_to_cycle`. -/
def addToModule (st : Store) (issueId moduleId : String) : Bool × Store :=
  (true,
    { st with
      issues := st.issues.map fun r =>
        if r.id = issueId then { r with module_id := some moduleId } else r })

/-- `comment`: insert a comment row, increment the parent issue's
`comment_count`, commit both together, return `lastrowid`. -/
def addComment (st : Store) (issueId user body : String) : Nat × Store :=
  let cid := st.nextCommentId
  let row : CommentRow :=
    { id := cid, issue_id := issueId, user := user, body := body, created_at := st.clock }
  let issues := st.issues.map fun r =>
    if r.id = issueId then { r with comment_count := r.comment_count + 1 } else r
  (cid,
    { st with
      issues := issues, comments := st.comments ++ [row],
      nextCommentId := cid + 1, clock := st.clock + 1 })

/-! ### Reads -/

/-- The `Issue` dataclass as reconstructed by `get_issues`. -/
structure Issue where
  id : String
  workspace_id : String
  project_id : String
  sequence_id : Nat
  title : String
  description : String
  type : String
  status : String
  priority : String
  assignees : List String
  labels : List String
  cycle_id : Option String
  module_id : Option String
  created_by : Option String
  created_at : Nat
  updated_at : Nat
  due_date : Option Nat
  estimate_points : Option Int
  link_count : Nat
  attachment_count : Nat
  comment_count : Nat
deriving DecidableEq, Repr

/-- One row of the `SELECT *` turned into an `Issue`:
`json.loads(row[9] or "[]")` / `json.loads(row[10] or "[]")`; a decoding
failure is the fatal condition of §7, hence `none`. -/
def rowToIssue (r : IssueRow) : Option Issue :=
  match jsonLoads (if r.assignees = "" then "[]" else r.assignees),
        jsonLoads (if r.labels = "" then "[]" else r.labels) with
  | some as, some ls =>
    some { id := r.id, workspace_id := r.workspace_id, project_id := r.project_id,
           sequence_id := r.sequence_id, title := r.title, description := r.description,
           type := r.type, status := r.status, priority := r.priority,
           assignees := as, labels := ls, cycle_id := r.cycle_id,
           module_id := r.module_id, created_by := r.created_by,
           created_at := r.created_at, updated_at := r.updated_at,
           due_date := r.due_date, estimate_points := r.estimate_points,
           link_count := r.link_count, attachment_count := r.attachment_count,
           comment_count := r.comment_count }
  | _, _ => Option.none

/-- The optional filters of `get_issues`; a missing key adds no `AND`
clause. -/
structure Filters where
  status : Option String := Option.none
  priority : Option String := Option.none
  assignee : Option String := Option.none
  label : Option String := Option.none
  cycle_id : Option String := Option.none
deriving DecidableEq, Repr

/-- The `WHERE` clause built by `get_issues`: exact project match, then one
independently AND-ed clause per supplied filter (`LIKE '%...%'` for
assignee/label). -/
def rowMatches (pid : String) (f : Filters) (r : IssueRow) : Bool :=
  r.project_id = pid
  && (match f.status with | some s => r.status = s | Option.none => true)
  && (match f.priority with | some p => r.priority = p | Option.none => true)
  && (match f.assignee with
      | some a => sqliteLike ("%" ++ a ++ "%") r.assignees
      | Option.none => true)
  && (match f.label with
      | some l => sqliteLike ("%" ++ l ++ "%") r.labels
      | Option.none => true)
  && (match f.cycle_id with | some c => r.cycle_id = some c | Option.none => true)

/-- `get_issues`: scan in natural (insertion) order, keep matching rows,
convert each to an `Issue`. -/
def getIssues (st : Store) (pid : String) (f : Filters) : Option (List Issue) :=
  (st.issues.filter (rowMatches pid f)).mapM rowToIssue

/-- The comment dict returned by `get_comments`. -/
structure CommentView where
  id : Nat
  user : String
  body : String
  created_at : Nat
deriving DecidableEq, Repr

/-- Stable insertion preserving existing order among equal keys, modelling
`ORDER BY created_at`. -/
def insertByCreated (c : CommentRow) : List CommentRow → List CommentRow
  | [] => [c]
  | d :: ds =>
    if d.created_at ≤ c.created_at then d :: insertByCreated c ds else c :: d :: ds

def sortByCreated (l : List CommentRow) : List CommentRow :=
  l.foldr insertByCreated []

/-- `get_comments`: all rows with the issue's id, `ORDER BY created_at`. -/
def getComments (st : Store) (issueId : String) : List CommentView :=
  (sortByCreated (st.comments.filter fun c => c.issue_id = issueId)).map
    fun c => { id := c.id, user := c.user, body := c.body, created_at := c.created_at }

/-- The dict returned by `get_cycle_analytics`. -/
structure CycleAnalytics where
  total_issues : Nat
  completed : Nat
  remaining : Nat
  progress_pct : Nat
  remaining_points : Int
deriving DecidableEq, Repr

/-- Bit length of a natural number (0 for 0).  `bitsAux` counts the
halvings down to 0; its first argument is fuel that only drives
structural termination, and `fuel = n` always suffices since `n` halves
at every step. -/
def bitsAux : Nat → Nat → Nat
  | 0, _ => 0
  | fuel + 1, n => if n = 0 then 0 else bitsAux fuel (n / 2) + 1

def natBits (n : Nat) : Nat := bitsAux n n

/-- Round the nonnegative rational `n / d` (`d > 0`) to the nearest
integer, ties to even — the rounding step of every IEEE-754 operation in
the default rounding mode. -/
def roundNE (n d : Nat) : Nat :=
  if 2 * (n % d) > d then n / d + 1
  else if 2 * (n % d) < d then n / d
  else if n / d % 2 = 0 then n / d else n / d + 1

/-- Correctly round the nonnegative rational `p / q` (`q > 0`) to an IEEE
binary64 value, nearest-even, written `(m, e)` for the value `m * 2 ^ e`.
The scale `s` puts `p / q` between `2 ^ 52` and `2 ^ 54` grid units, the
conditional halves the grid when the quotient lands in the upper octave,
and a scale past the subnormal floor clamps to the fixed subnormal grid
`2 ^ (-1074)`.  The values reaching this function in this file are ratios
of counts in `[0, 1]`, scaled by at most 100, so the rounding-to-infinity
overflow branch of IEEE-754 can never fire and is omitted. -/
def floatRound (p q : Nat) : Nat × Int :=
  if p = 0 then (0, 0)
  else
    let s : Int := 53 + (natBits q : Int) - (natBits p : Int)
    let n := p * 2 ^ (max s 0).toNat
    let d := q * 2 ^ (max (-s) 0).toNat
    let (d, s) := if 2 ^ 53 * d ≤ n then (2 * d, s - 1) else (d, s)
    if s ≤ 1074 then (roundNE n d, -s)
    else (roundNE (p * 2 ^ 1074) q, -1074)

/-- IEEE binary64 multiplication of a nonnegative value by 100 (an int
CPython converts to the exactly representable float 100.0): the exact
product, rounded again. -/
def floatMul100 : Nat × Int → Nat × Int
  | (m, e) =>
    if 0 ≤ e then floatRound (100 * m * 2 ^ e.toNat) 1
    else floatRound (100 * m) (2 ^ (-e).toNat)

/-- Python `int()` on a nonnegative binary64 value: truncation toward
zero. -/
def floatTruncNat : Nat × Int → Nat
  | (m, e) => if 0 ≤ e then m * 2 ^ e.toNat else m / 2 ^ (-e).toNat

/-- `int((completed / total * 100) if total > 0 else 0)` as CPython
evaluates it: true division of two ints is the correctly rounded binary64
quotient of the exact ratio, `* 100` rounds the exact product once more,
and `int()` truncates.  The float detour is observable: 29 completed of
100 yields 28, not the 29 of exact integer truncation. -/
def progressPct (completed total : Nat) : Nat :=
  if 0 < total then floatTruncNat (floatMul100 (floatRound completed total)) else 0

/-- The signed 64-bit range of a SQLite `INTEGER`. -/
def inI64 (s : Int) : Prop := -(2 ^ 63) ≤ s ∧ s < 2 ^ 63

instance (s : Int) : Decidable (inI64 s) :=
  inferInstanceAs (Decidable (-(2 ^ 63) ≤ s ∧ s < 2 ^ 63))

/-- SQLite `SUM` over an integer column: a signed 64-bit running sum that
raises "integer overflow" (`none`) as soon as one accumulation step
leaves the range. -/
def sumI64Aux : Int → List Int → Option Int
  | acc, [] => some acc
  | acc, x :: xs =>
    if inI64 (acc + x) then sumI64Aux (acc + x) xs else Option.none

/-- SQLite `SUM` of a column expression over the scanned rows.  `SUM`
of an empty scan is `NULL`, and both call sites apply Python's `or 0` to
the fetched value, so the empty sum is modeled as 0 directly. -/
def sumI64 (l : List Int) : Option Int := sumI64Aux 0 l

/-- `get_cycle_analytics`: one aggregate over the cycle's issues
(`COUNT(*)` and `SUM(CASE WHEN status = 'done' ...)`, the NULL sum of an
empty scan coerced to 0 by `or 0`), a second over its non-`done` issues
(`SUM(estimate_points if set else 1)`, likewise `or 0`), and
`int((completed / total * 100) if total > 0 else 0)` evaluated in IEEE
binary64 arithmetic as CPython evaluates it.  A `SUM` whose running
64-bit total overflows raises SQLite's "integer overflow" before any
dict is built, hence `none`; the 0/1 sum goes through the same checked
accumulator (`COUNT(*)` itself stays in range for every store of fewer
than `2 ^ 63` rows). -/
def getCycleAnalytics (st : Store) (cycleId : String) : Option CycleAnalytics :=
  let rows := st.issues.filter fun r => r.cycle_id = some cycleId
  let total := rows.length
  match sumI64 (rows.map fun r => if r.status = "done" then (1 : Int) else 0) with
  | Option.none => Option.none
  | some completedI =>
    match sumI64 ((rows.filter fun r => r.status ≠ "done").map fun r =>
        match r.estimate_points with
        | some e => e
        | Option.none => 1) with
    | Option.none => Option.none
    | some remainingPoints =>
      some
        { total_issues := total, completed := completedI.toNat,
          remaining := total - completedI.toNat,
          progress_pct := progressPct completedI.toNat total,
          remaining_points := remainingPoints }

/-! ### Operation traces

For store-wide invariants, a trace of the mutating operations of the
surface.  A `create` carries the id that `uuid.uuid4()` produced;
`Admissible` records the uuid contract — the generated id collides with no
existing issue id and no comment's `issue_id`. -/

inductive Op where
  | create (newId pid title descr issueType priority : String)
      (assignees labels : List String)
  | update (issueId : String) (kwargs : List (String × PyVal))
  | bulk (issueIds : List String) (kwargs : List (String × PyVal))
  | toCycle (issueId cycleId : String)
  | toModule (issueId moduleId : String)
  | comment (issueId user body : String)

/-- The store after one operation.  A raising statement (`none` result)
leaves the store unchanged: nothing was committed. -/
def step (st : Store) : Op → Store
  | .create i p t d ty pr as ls => (createIssue st i p t d ty pr as ls).2
  | .update iid kw =>
    (match updateIssue st iid kw with
     | some (_, st') => st'
     | Option.none => st)
  | .bulk ids kw =>
    (match bulkUpdate st ids kw with
     | some (_, st') => st'
     | Option.none => st)
  | .toCycle i c => (addToCycle st i c).2
  | .toModule i m => (addToModule st i m).2
  | .comment i u b => (addComment st i u b).2

def run (st : Store) (ops : List Op) : Store :=
  ops.foldl step st

/-- The id produced for a `create` is globally fresh. -/
def FreshId (st : Store) (id : String) : Prop :=
  (∀ r ∈ st.issues, r.id ≠ id) ∧ (∀ c ∈ st.comments, c.issue_id ≠ id)

def Admissible : Store → List Op → Prop
  | _, [] => True
  | st, op :: ops =>
    (match op with
     | .create i _ _ _ _ _ _ _ => FreshId st i
     | _ => True) ∧ Admissible (step st op) ops

/-- Number of comment rows referencing an issue id. -/
def countComments (st : Store) (iid : String) : Nat :=
  (st.comments.filter fun c => c.issue_id = iid).length

/-- Invariant of §8: every stored issue's denormalized `comment_count` agrees
with the comment rows referencing it. -/
def CommentCountInv (st : Store) : Prop :=
  ∀ r ∈ st.issues, r.comment_count = countComments st r.id

/-- Well-formedness of the comments table that every reachable store
enjoys: rows were inserted at strictly increasing clock times (insertion
order equals chronological order) and the clock is ahead of every row. -/
def CommentsWf (st : Store) : Prop :=
  List.Pairwise (fun a b => a.created_at < b.created_at) st.comments ∧
    ∀ c ∈ st.comments, c.created_at < st.clock

/-- The operation is a `create` against project `p`. -/
def isCreateFor (p : String) : Op → Prop
  | .create _ pid _ _ _ _ _ _ => pid = p
  | _ => False

/-! ### Example stores used by concrete instances in the theorems -/

/-- Two issues of project `"p"` in cycle `"c"`, the first updated to
status `"done"`. -/
def exTwoOneDone : Store :=
  ((updateIssue
    ((addToCycle ((addToCycle
      ((createIssue ((createIssue emptyStore "a" "p" "A" "" "task" "medium" [] []).2)
        "b" "p" "B" "" "task" "medium" [] []).2) "a" "c").2) "b" "c").2)
    "a" [("status", PyVal.str "done")]).getD (false, emptyStore)).2

/-- Same two issues, but the update wrote `"Done"` (capital D). -/
def exTwoOneCapDone : Store :=
  ((updateIssue
    ((addToCycle ((addToCycle
      ((createIssue ((createIssue emptyStore "a" "p" "A" "" "task" "medium" [] []).2)
        "b" "p" "B" "" "task" "medium" [] []).2) "a" "c").2) "b" "c").2)
    "a" [("status", PyVal.str "Done")]).getD (false, emptyStore)).2

/-- Three issues of project `"p"` in cycle `"c"`, the first `"done"`. -/
def exThreeOneDone : Store :=
  ((updateIssue
    ((addToCycle ((addToCycle ((addToCycle
      ((createIssue ((createIssue ((createIssue emptyStore
        "a" "p" "A" "" "task" "medium" [] []).2)
        "b" "p" "B" "" "task" "medium" [] []).2)
        "x" "p" "X" "" "task" "medium" [] []).2) "a" "c").2) "b" "c").2) "x" "c").2)
    "a" [("status", PyVal.str "done")]).getD (false, emptyStore)).2

/-- Three issues `"a"`, `"b"`, `"x"` of project `"p"`, untouched. -/
def exThreePlain : Store :=
  (createIssue ((createIssue ((createIssue emptyStore
    "a" "p" "A" "" "task" "medium" [] []).2)
    "b" "p" "B" "" "task" "medium" [] []).2)
    "x" "p" "X" "" "task" "medium" [] []).2

/-- One issue `"a"` of project `"p"` with assignees `["alice"]`. -/
def exAlice : Store :=
  (createIssue emptyStore "a" "p" "T" "" "task" "medium" ["alice"] []).2

/-- Issue `"a"` assigned to alice and issue `"b"` assigned to bob, both of
project `"p"`. -/
def exAliceBob : Store :=
  (createIssue exAlice "b" "p" "U" "" "task" "medium" ["bob"] []).2

/-- The issue of `exAlice` as `get_issues` reconstructs it. -/
def exAliceIssue : Issue :=
  { id := "a", workspace_id := "default", project_id := "p", sequence_id := 1,
    title := "T", description := "", type := "task", status := "backlog",
    priority := "medium", assignees := ["alice"], labels := [],
    cycle_id := none, module_id := none, created_by := none,
    created_at := 0, updated_at := 0, due_date := none, estimate_points := none,
    link_count := 0, attachment_count := 0, comment_count := 0 }

/-- A hundred issues of project `"p"`, all in cycle `"c"`, the first 29
marked `"done"`: a hundred `create` calls, one `bulk_update` binding the
cycle and one marking the `"done"` batch. -/
def exHundred : Store :=
  let created := (List.range 100).foldl
    (fun st i => (createIssue st (toString i) "p" "T" "" "task" "medium" [] []).2)
    emptyStore
  let cycled := ((bulkUpdate created ((List.range 100).map toString)
    [("cycle_id", PyVal.str "c")]).getD (0, created)).2
  ((bulkUpdate cycled ((List.range 29).map toString)
    [("status", PyVal.str "done")]).getD (0, cycled)).2

/-! ## Lemmas: JSON encode/decode round-trip -/

theorem hexVal_hexDigitChar {n : Nat} (h : n < 16) : hexVal (hexDigitChar n) = some n := by
  interval_cases n <;> rfl

theorem parseHex4_hex4 {n : Nat} (h : n < 65536) (rest : List Char) :
    parseHex4 (hex4 n ++ rest) = some (n, rest) := by
  have h1 : n / 4096 % 16 < 16 := Nat.mod_lt _ (by omega)
  have h2 : n / 256 % 16 < 16 := Nat.mod_lt _ (by omega)
  have h3 : n / 16 % 16 < 16 := Nat.mod_lt _ (by omega)
  have h4 : n % 16 < 16 := Nat.mod_lt _ (by omega)
  simp [hex4, parseHex4, hexVal_hexDigitChar h1, hexVal_hexDigitChar h2,
        hexVal_hexDigitChar h3, hexVal_hexDigitChar h4]
  omega

theorem parseStringAux_lit (fuel : Nat) (acc rest : List Char) (c : Char)
    (h1 : c ≠ '"') (h2 : c ≠ '\\') (h3 : 32 ≤ c.toNat) :
    parseStringAux (fuel + 1) acc (c :: rest) = parseStringAux fuel (acc ++ [c]) rest := by
  rw [parseStringAux]
  · simp [Nat.not_lt.mpr h3]
  · intro hc; exact h1 hc
  · intro esc r hc _; exact h2 hc

theorem char_valid_nat (c : Char) :
    c.toNat < 55296 ∨ (57343 < c.toNat ∧ c.toNat < 1114112) := by
  have hv := c.valid
  simp only [UInt32.isValidChar, Nat.isValidChar] at hv
  exact hv

theorem parseStringAux_escape (fuel : Nat) (acc rest : List Char) (c : Char) :
    parseStringAux (fuel + 1) acc (escapeChar c ++ rest) =
      parseStringAux fuel (acc ++ [c]) rest := by
  have hch := Char.ofNat_toNat c
  unfold escapeChar
  by_cases e34 : c.toNat = 34
  · have hc : c = '"' := by rw [← hch, e34]
    simp [e34, parseStringAux, hc]
  by_cases e92 : c.toNat = 92
  · have hc : c = '\\' := by rw [← hch, e92]
    simp [e34, e92, parseStringAux, hc]
  by_cases e8 : c.toNat = 8
  · have hc : c = Char.ofNat 8 := by rw [← hch, e8]
    simp [e34, e92, e8, parseStringAux, hc]
  by_cases e9 : c.toNat = 9
  · have hc : c = Char.ofNat 9 := by rw [← hch, e9]
    simp [e34, e92, e8, e9, parseStringAux, hc]
  by_cases e10 : c.toNat = 10
  · have hc : c = Char.ofNat 10 := by rw [← hch, e10]
    simp [e34, e92, e8, e9, e10, parseStringAux, hc]
  by_cases e12 : c.toNat = 12
  · have hc : c = Char.ofNat 12 := by rw [← hch, e12]
    simp [e34, e92, e8, e9, e10, e12, parseStringAux, hc]
  by_cases e13 : c.toNat = 13
  · have hc : c = Char.ofNat 13 := by rw [← hch, e13]
    simp [e34, e92, e8, e9, e10, e12, e13, parseStringAux, hc]
  by_cases elit : 32 ≤ c.toNat ∧ c.toNat ≤ 126
  · have h1 : c ≠ '"' := fun h => e34 (by rw [h]; rfl)
    have h2 : c ≠ '\\' := fun h => e92 (by rw [h]; rfl)
    rw [if_neg e34, if_neg e92, if_neg e8, if_neg e9, if_neg e10, if_neg e12,
      if_neg e13, if_pos elit, List.singleton_append]
    exact parseStringAux_lit fuel acc rest c h1 h2 elit.1
  by_cases ebmp : c.toNat < 65536
  · rw [if_neg e34, if_neg e92, if_neg e8, if_neg e9, if_neg e10, if_neg e12,
      if_neg e13, if_neg elit, if_pos ebmp]
    have hvalid := char_valid_nat c
    have hsur : ¬(55296 ≤ c.toNat ∧ c.toNat < 56320) := by omega
    have hok : c.toNat < 55296 ∨ 57343 < c.toNat := by omega
    simp only [List.cons_append, List.append_assoc]
    rw [parseStringAux]
    simp [parseHex4_hex4 ebmp, hsur, hok, hch]
  · rw [if_neg e34, if_neg e92, if_neg e8, if_neg e9, if_neg e10, if_neg e12,
      if_neg e13, if_neg elit, if_neg ebmp]
    have hvalid := char_valid_nat c
    have hhi : 55296 + (c.toNat - 65536) / 1024 < 65536 := by omega
    have hlo : 56320 + (c.toNat - 65536) % 1024 < 65536 := by omega
    have hhis : 55296 ≤ 55296 + (c.toNat - 65536) / 1024 ∧
        55296 + (c.toNat - 65536) / 1024 < 56320 := by omega
    have hlos : 56320 ≤ 56320 + (c.toNat - 65536) % 1024 ∧
        56320 + (c.toNat - 65536) % 1024 < 57344 := by omega
    have hcomb : 65536 + (c.toNat - 65536) / 1024 * 1024 + (c.toNat - 65536) % 1024
        = c.toNat := by omega
    simp only [List.cons_append, List.append_assoc]
    rw [parseStringAux]
    simp only [parseHex4_hex4 hhi, parseHex4_hex4 hlo, if_pos hhis, if_pos hlos]
    rw [show 55296 + (c.toNat - 65536) / 1024 - 55296 = (c.toNat - 65536) / 1024 by omega,
      show 56320 + (c.toNat - 65536) % 1024 - 56320 = (c.toNat - 65536) % 1024 by omega,
      hcomb, hch]

theorem escapeChar_length_pos (c : Char) : 1 ≤ (escapeChar c).length := by
  dsimp only [escapeChar]
  split_ifs <;> simp [hex4]

theorem length_le_flatMap_escapeChar (cs : List Char) :
    cs.length ≤ (cs.flatMap escapeChar).length := by
  induction cs with
  | nil => simp
  | cons c cs ih =>
    have := escapeChar_length_pos c
    simp only [List.flatMap_cons, List.length_append, List.length_cons]
    omega

theorem parseStringAux_encode (cs : List Char) :
    ∀ (acc rest : List Char) (fuel : Nat), cs.length < fuel →
    parseStringAux fuel acc (cs.flatMap escapeChar ++ '"' :: rest) = some (acc ++ cs, rest) := by
  induction cs with
  | nil =>
    intro acc rest fuel hf
    match fuel, hf with
    | f + 1, _ => simp [parseStringAux]
  | cons c cs ih =>
    intro acc rest fuel hf
    match fuel, hf with
    | f + 1, hf =>
      simp only [List.flatMap_cons, List.append_assoc]
      rw [parseStringAux_escape, ih (acc ++ [c]) rest f (by simp at hf ⊢; omega)]
      simp

theorem encodeString_data (s : String) :
    (encodeString s).data = '"' :: (s.data.flatMap escapeChar ++ ['"']) := rfl

theorem string_mk_data (s : String) : String.mk s.data = s := rfl

theorem skipWs_cons_of_not (c : Char) (t : List Char) (h : isJsonWs c = false) :
    skipWs (c :: t) = c :: t := by simp [skipWs, h]

theorem skipWs_cons_of_ws (c : Char) (t : List Char) (h : isJsonWs c = true) :
    skipWs (c :: t) = skipWs t := by simp [skipWs, h]

theorem intercalate_go_data (sep : String) (as : List String) :
    ∀ acc : String, (String.intercalate.go acc sep as).data =
      acc.data ++ as.flatMap fun x => sep.data ++ x.data := by
  induction as with
  | nil => intro acc; simp [String.intercalate.go]
  | cons a as ih =>
    intro acc
    rw [String.intercalate.go, ih]
    simp [String.data_append]

theorem jsonDumps_data_cons (s : String) (l : List String) :
    (jsonDumps (s :: l)).data =
      '[' :: ((encodeString s).data ++
        ((l.flatMap fun x => ',' :: ' ' :: (encodeString x).data) ++ [']'])) := by
  unfold jsonDumps
  rw [String.intercalate.eq_def]
  simp only [List.map_cons]
  rw [String.data_append, String.data_append, intercalate_go_data]
  simp [List.flatMap_map]

theorem length_le_flatMap_enc (l : List String) :
    l.length ≤ (l.flatMap fun x => ',' :: ' ' :: (encodeString x).data).length := by
  induction l with
  | nil => simp
  | cons x l ih =>
    simp only [List.flatMap_cons, List.length_append, List.length_cons]
    omega

theorem parseItemsAux_step (f : Nat) (acc : List String) (s : String) (tail : List Char) :
    parseItemsAux (f + 1) acc ('"' :: (s.data.flatMap escapeChar ++ '"' :: tail)) =
      match skipWs tail with
      | ']' :: rest3 => some (acc ++ [s], rest3)
      | ',' :: rest3 => parseItemsAux f (acc ++ [s]) (skipWs rest3)
      | _ => none := by
  rw [parseItemsAux]
  have hlen : s.data.length < (s.data.flatMap escapeChar ++ '"' :: tail).length + 1 := by
    have := length_le_flatMap_escapeChar s.data
    simp only [List.length_append, List.length_cons]
    omega
  rw [parseStringAux_encode s.data [] tail _ hlen]
  simp only [List.nil_append, string_mk_data]

theorem parseItemsAux_encode (l : List String) :
    ∀ (s : String) (acc : List String) (fuel : Nat) (rest : List Char), l.length < fuel →
    parseItemsAux fuel acc
      ((encodeString s).data ++
        ((l.flatMap fun x => ',' :: ' ' :: (encodeString x).data) ++ ']' :: rest)) =
      some (acc ++ s :: l, rest) := by
  induction l with
  | nil =>
    intro s acc fuel rest hf
    match fuel, hf with
    | f + 1, _ =>
      rw [encodeString_data]
      simp only [List.flatMap_nil, List.nil_append, List.cons_append, List.append_assoc,
        List.singleton_append]
      rw [parseItemsAux_step, skipWs_cons_of_not ']' rest (by rfl)]
      rfl
  | cons x l ih =>
    intro s acc fuel rest hf
    match fuel, hf with
    | f + 1, hf =>
      rw [encodeString_data]
      simp only [List.flatMap_cons, List.cons_append, List.append_assoc,
        List.singleton_append]
      rw [parseItemsAux_step]
      simp only [List.nil_append]
      rw [skipWs_cons_of_not ',' _ (by rfl)]
      have harm : (match (',' ::
            ' ' :: ((encodeString x).data ++
              ((l.flatMap fun y => ',' :: ' ' :: (encodeString y).data) ++ ']' :: rest)) : List Char) with
          | ']' :: rest3 => some (acc ++ [s], rest3)
          | ',' :: rest3 => parseItemsAux f (acc ++ [s]) (skipWs rest3)
          | _ => (none : Option (List String × List Char))) =
          parseItemsAux f (acc ++ [s]) (skipWs (' ' :: ((encodeString x).data ++
            ((l.flatMap fun y => ',' :: ' ' :: (encodeString y).data) ++ ']' :: rest)))) := rfl
      rw [harm, skipWs_cons_of_ws ' ' _ (by rfl)]
      have hf2 : l.length < f := by
        simp only [List.length_cons] at hf
        omega
      have ihx := ih x (acc ++ [s]) f rest hf2
      rw [encodeString_data] at ihx
      simp only [List.cons_append, List.append_assoc, List.singleton_append] at ihx
      rw [encodeString_data]
      simp only [List.cons_append, List.append_assoc, List.singleton_append]
      rw [skipWs_cons_of_not '"' _ (by rfl), ihx]
      simp

theorem match_default_quote (B : List Char) (F G : List Char → Option (List String)) :
    (match ('"' :: B : List Char) with
     | ']' :: r => F r
     | r => G r) = G ('"' :: B) := rfl

theorem jsonLoadsArr_encode (s : String) (l : List String) :
    jsonLoadsArr ((encodeString s).data ++
      ((l.flatMap fun x => ',' :: ' ' :: (encodeString x).data) ++ [']'])) = some (s :: l) := by
  unfold jsonLoadsArr
  rw [encodeString_data]
  simp only [List.cons_append, List.append_assoc, List.singleton_append]
  rw [skipWs_cons_of_not '"' _ (by rfl)]
  rw [match_default_quote]
  have hfl : l.length ≤ (l.flatMap fun x => ',' :: ' ' :: (encodeString x).data).length :=
    length_le_flatMap_enc l
  have hf : l.length <
      ('"' :: (s.data.flatMap escapeChar ++ '"' ::
        ((l.flatMap fun x => ',' :: ' ' :: (encodeString x).data) ++ [']']))).length + 1 := by
    simp only [List.length_cons, List.length_append]
    omega
  have henc := parseItemsAux_encode l s []
    (('"' :: (s.data.flatMap escapeChar ++ '"' ::
      ((l.flatMap fun x => ',' :: ' ' :: (encodeString x).data) ++ [']']))).length + 1) [] hf
  rw [encodeString_data] at henc
  simp only [List.cons_append, List.append_assoc, List.singleton_append, List.nil_append] at henc ⊢
  rw [henc]
  simp [skipWs]

theorem houter_bracket (B : List Char) (F : List Char → Option (List String)) :
    (match ('[' :: B : List Char) with
     | '[' :: rest => F rest
     | _ => (none : Option (List String))) = F B := rfl

theorem jsonLoads_jsonDumps (l : List String) : jsonLoads (jsonDumps l) = some l := by
  cases l with
  | nil => rfl
  | cons s l =>
    unfold jsonLoads
    rw [jsonDumps_data_cons, skipWs_cons_of_not '[' _ (by rfl), houter_bracket,
      jsonLoadsArr_encode]

/-! ## Lemmas: generic list/option helpers -/

theorem mapM'_option_some_iff {α β : Type} (f : α → Option β) :
    ∀ (l : List α) (l' : List β),
      List.mapM' f l = some l' ↔ List.Forall₂ (fun a b => f a = some b) l l' := by
  intro l
  induction l with
  | nil => intro l'; cases l' <;> simp [List.mapM']
  | cons a l ih =>
    intro l'
    rw [List.mapM']
    constructor
    · intro h
      cases hfa : f a with
      | none => simp [hfa] at h
      | some b =>
        cases hml : List.mapM' f l with
        | none => simp [hfa, hml] at h
        | some bs =>
          simp only [hfa, hml, Option.bind_eq_bind, Option.some_bind, Option.some.injEq,
            Option.pure_def] at h
          subst h
          exact List.Forall₂.cons hfa ((ih bs).mp hml)
    · intro h
      cases l' with
      | nil => cases h
      | cons b bs =>
        rcases List.forall₂_cons.mp h with ⟨h1, h2⟩
        simp [h1, (ih bs).mpr h2]

theorem mapM_option_some_iff {α β : Type} (f : α → Option β) (l : List α) (l' : List β) :
    l.mapM f = some l' ↔ List.Forall₂ (fun a b => f a = some b) l l' := by
  rw [← List.mapM'_eq_mapM]
  exact mapM'_option_some_iff f l l'

theorem mapM_option_id {α : Type} (f : α → Option α) (l : List α)
    (h : ∀ x ∈ l, f x = some x) : l.mapM f = some l :=
  (mapM_option_some_iff f l l).mpr (List.forall₂_same.mpr h)

theorem sum_ite_eq_length_filter {α : Type} (l : List α) (p : α → Bool) :
    (l.map fun a => if p a then (1 : Nat) else 0).sum = (l.filter p).length := by
  induction l with
  | nil => rfl
  | cons a l ih =>
    by_cases h : p a
    · simp [h, ih]
      omega
    · simp [h, ih]

/-! ## Lemmas: per-project sequence numbers -/

theorem maxSeq_foldl_acc (p : String) (l : List IssueRow) :
    ∀ a : Nat,
      l.foldl (fun m r => if r.project_id = p then max m r.sequence_id else m) a =
        max a (l.foldl (fun m r => if r.project_id = p then max m r.sequence_id else m) 0) := by
  induction l with
  | nil => intro a; simp
  | cons r l ih =>
    intro a
    by_cases h : r.project_id = p
    · simp only [List.foldl_cons, h, if_true]
      rw [ih (max a r.sequence_id), ih (max 0 r.sequence_id)]
      omega
    · simp only [List.foldl_cons, h, if_false]
      exact ih a

theorem maxSeq_foldl_zero (p : String) (l : List IssueRow)
    (h : ∀ r ∈ l, r.project_id ≠ p) :
    l.foldl (fun m r => if r.project_id = p then max m r.sequence_id else m) 0 = 0 := by
  induction l with
  | nil => rfl
  | cons r l ih =>
    simp only [List.foldl_cons, if_neg (h r (by simp))]
    exact ih fun r hr => h r (by simp [hr])

theorem maxSeq_zero_of_no_project (st : Store) (p : String)
    (h : ∀ r ∈ st.issues, r.project_id ≠ p) : maxSeq st p = 0 :=
  maxSeq_foldl_zero p st.issues h

theorem createIssue_issues_map_seq (st : Store) (i p t d ty pr : String)
    (as ls : List String) :
    ((createIssue st i p t d ty pr as ls).2.issues.map fun r => (r.project_id, r.sequence_id)) =
      (st.issues.map fun r => (r.project_id, r.sequence_id)) ++ [(p, maxSeq st p + 1)] := by
  simp [createIssue]

theorem maxSeq_createIssue_same (st : Store) (i p t d ty pr : String)
    (as ls : List String) :
    maxSeq (createIssue st i p t d ty pr as ls).2 p = maxSeq st p + 1 := by
  simp only [createIssue, maxSeq]
  rw [List.foldl_append]
  simp

theorem maxSeq_createIssue_other (st : Store) (i p t d ty pr : String)
    (as ls : List String) (q : String) (hq : p ≠ q) :
    maxSeq (createIssue st i p t d ty pr as ls).2 q = maxSeq st q := by
  unfold maxSeq createIssue
  rw [List.foldl_append]
  simp [hq]

/-! ## Lemmas: update frame conditions -/

theorem setField_frame (r : IssueRow) (k : String) (v : PyVal) (r' : IssueRow)
    (h : setField r k v = some r') :
    r'.id = r.id ∧ r'.workspace_id = r.workspace_id ∧ r'.project_id = r.project_id ∧
    r'.sequence_id = r.sequence_id ∧ r'.type = r.type ∧ r'.created_by = r.created_by ∧
    r'.created_at = r.created_at ∧ r'.link_count = r.link_count ∧
    r'.attachment_count = r.attachment_count ∧ r'.comment_count = r.comment_count ∧
    (k ≠ "title" → r'.title = r.title) ∧
    (k ≠ "description" → r'.description = r.description) ∧
    (k ≠ "status" → r'.status = r.status) ∧
    (k ≠ "priority" → r'.priority = r.priority) ∧
    (k ≠ "assignees" → r'.assignees = r.assignees) ∧
    (k ≠ "labels" → r'.labels = r.labels) ∧
    (k ≠ "cycle_id" → r'.cycle_id = r.cycle_id) ∧
    (k ≠ "module_id" → r'.module_id = r.module_id) ∧
    (k ≠ "due_date" → r'.due_date = r.due_date) ∧
    (k ≠ "estimate_points" → r'.estimate_points = r.estimate_points) ∧
    (k ≠ "updated_at" → r'.updated_at = r.updated_at) := by
  unfold setField at h
  by_cases hk1 : k = "title"
  · rw [if_pos hk1] at h
    cases v <;> (try cases h) <;> and_intros <;> (try rfl) <;>
      (intro hne; first | rfl | exact absurd hk1 hne)
  rw [if_neg hk1] at h
  by_cases hk2 : k = "description"
  · rw [if_pos hk2] at h
    cases v <;> (try cases h) <;> and_intros <;> (try rfl) <;>
      (intro hne; first | rfl | exact absurd hk2 hne)
  rw [if_neg hk2] at h
  by_cases hk3 : k = "status"
  · rw [if_pos hk3] at h
    cases v <;> (try cases h) <;> and_intros <;> (try rfl) <;>
      (intro hne; first | rfl | exact absurd hk3 hne)
  rw [if_neg hk3] at h
  by_cases hk4 : k = "priority"
  · rw [if_pos hk4] at h
    cases v <;> (try cases h) <;> and_intros <;> (try rfl) <;>
      (intro hne; first | rfl | exact absurd hk4 hne)
  rw [if_neg hk4] at h
  by_cases hk5 : k = "assignees"
  · rw [if_pos hk5] at h
    cases v <;> (try cases h) <;> and_intros <;> (try rfl) <;>
      (intro hne; first | rfl | exact absurd hk5 hne)
  rw [if_neg hk5] at h
  by_cases hk6 : k = "labels"
  · rw [if_pos hk6] at h
    cases v <;> (try cases h) <;> and_intros <;> (try rfl) <;>
      (intro hne; first | rfl | exact absurd hk6 hne)
  rw [if_neg hk6] at h
  by_cases hk7 : k = "cycle_id"
  · rw [if_pos hk7] at h
    cases v <;> (try cases h) <;> and_intros <;> (try rfl) <;>
      (intro hne; first | rfl | exact absurd hk7 hne)
  rw [if_neg hk7] at h
  by_cases hk8 : k = "module_id"
  · rw [if_pos hk8] at h
    cases v <;> (try cases h) <;> and_intros <;> (try rfl) <;>
      (intro hne; first | rfl | exact absurd hk8 hne)
  rw [if_neg hk8] at h
  by_cases hk9 : k = "due_date"
  · rw [if_pos hk9] at h
    cases v <;> (try cases h) <;> and_intros <;> (try rfl) <;>
      (intro hne; first | rfl | exact absurd hk9 hne)
  rw [if_neg hk9] at h
  by_cases hk10 : k = "estimate_points"
  · rw [if_pos hk10] at h
    cases v <;> (try cases h) <;> and_intros <;> (try rfl) <;>
      (intro hne; first | rfl | exact absurd hk10 hne)
  rw [if_neg hk10] at h
  by_cases hk11 : k = "updated_at"
  · rw [if_pos hk11] at h
    cases v <;> (try cases h) <;> and_intros <;> (try rfl) <;>
      (intro hne; first | rfl | exact absurd hk11 hne)
  rw [if_neg hk11] at h
  cases h

theorem applyKwargs_nil (r : IssueRow) : applyKwargs [] r = some r := rfl

theorem applyKwargs_cons (kv : String × PyVal) (l : List (String × PyVal)) (r : IssueRow) :
    applyKwargs (kv :: l) r = (setField r kv.1 kv.2).bind (applyKwargs l) := by
  cases hs : setField r kv.1 kv.2 <;>
    simp [applyKwargs, List.foldlM_cons, hs]

theorem applyKwargs_frame (l : List (String × PyVal)) :
    ∀ (r r3 : IssueRow), applyKwargs l r = some r3 →
    r3.id = r.id ∧ r3.workspace_id = r.workspace_id ∧ r3.project_id = r.project_id ∧
    r3.sequence_id = r.sequence_id ∧ r3.type = r.type ∧ r3.created_by = r.created_by ∧
    r3.created_at = r.created_at ∧ r3.link_count = r.link_count ∧
    r3.attachment_count = r.attachment_count ∧ r3.comment_count = r.comment_count ∧
    ((∀ kv ∈ l, kv.1 ≠ "title") → r3.title = r.title) ∧
    ((∀ kv ∈ l, kv.1 ≠ "description") → r3.description = r.description) ∧
    ((∀ kv ∈ l, kv.1 ≠ "status") → r3.status = r.status) ∧
    ((∀ kv ∈ l, kv.1 ≠ "priority") → r3.priority = r.priority) ∧
    ((∀ kv ∈ l, kv.1 ≠ "assignees") → r3.assignees = r.assignees) ∧
    ((∀ kv ∈ l, kv.1 ≠ "labels") → r3.labels = r.labels) ∧
    ((∀ kv ∈ l, kv.1 ≠ "cycle_id") → r3.cycle_id = r.cycle_id) ∧
    ((∀ kv ∈ l, kv.1 ≠ "module_id") → r3.module_id = r.module_id) ∧
    ((∀ kv ∈ l, kv.1 ≠ "due_date") → r3.due_date = r.due_date) ∧
    ((∀ kv ∈ l, kv.1 ≠ "estimate_points") → r3.estimate_points = r.estimate_points) ∧
    ((∀ kv ∈ l, kv.1 ≠ "updated_at") → r3.updated_at = r.updated_at) := by
  induction l with
  | nil =>
    intro r r3 h
    rw [applyKwargs_nil] at h
    injection h with h2
    subst h2
    and_intros <;> (try rfl) <;> (intro hne; rfl)
  | cons kv l ih =>
    intro r r3 h
    rw [applyKwargs_cons] at h
    cases hs : setField r kv.1 kv.2 with
    | none => rw [hs] at h; cases h
    | some r1 =>
      rw [hs] at h
      simp only [Option.some_bind] at h
      obtain ⟨e1, e2, e3, e4, e5, e6, e7, e8, e9, e10, f1, f2, f3, f4, f5, f6, f7, f8, f9, f10, f11⟩ := setField_frame r kv.1 kv.2 r1 hs
      obtain ⟨g1, g2, g3, g4, g5, g6, g7, g8, g9, g10, j1, j2, j3, j4, j5, j6, j7, j8, j9, j10, j11⟩ := ih r1 r3 h
      exact ⟨g1.trans e1,
        g2.trans e2,
        g3.trans e3,
        g4.trans e4,
        g5.trans e5,
        g6.trans e6,
        g7.trans e7,
        g8.trans e8,
        g9.trans e9,
        g10.trans e10,
        fun hall => (j1 fun kv2 hk2 => hall kv2 (List.mem_cons_of_mem _ hk2)).trans (f1 (hall kv (List.mem_cons_self _ _))),
        fun hall => (j2 fun kv2 hk2 => hall kv2 (List.mem_cons_of_mem _ hk2)).trans (f2 (hall kv (List.mem_cons_self _ _))),
        fun hall => (j3 fun kv2 hk2 => hall kv2 (List.mem_cons_of_mem _ hk2)).trans (f3 (hall kv (List.mem_cons_self _ _))),
        fun hall => (j4 fun kv2 hk2 => hall kv2 (List.mem_cons_of_mem _ hk2)).trans (f4 (hall kv (List.mem_cons_self _ _))),
        fun hall => (j5 fun kv2 hk2 => hall kv2 (List.mem_cons_of_mem _ hk2)).trans (f5 (hall kv (List.mem_cons_self _ _))),
        fun hall => (j6 fun kv2 hk2 => hall kv2 (List.mem_cons_of_mem _ hk2)).trans (f6 (hall kv (List.mem_cons_self _ _))),
        fun hall => (j7 fun kv2 hk2 => hall kv2 (List.mem_cons_of_mem _ hk2)).trans (f7 (hall kv (List.mem_cons_self _ _))),
        fun hall => (j8 fun kv2 hk2 => hall kv2 (List.mem_cons_of_mem _ hk2)).trans (f8 (hall kv (List.mem_cons_self _ _))),
        fun hall => (j9 fun kv2 hk2 => hall kv2 (List.mem_cons_of_mem _ hk2)).trans (f9 (hall kv (List.mem_cons_self _ _))),
        fun hall => (j10 fun kv2 hk2 => hall kv2 (List.mem_cons_of_mem _ hk2)).trans (f10 (hall kv (List.mem_cons_self _ _))),
        fun hall => (j11 fun kv2 hk2 => hall kv2 (List.mem_cons_of_mem _ hk2)).trans (f11 (hall kv (List.mem_cons_self _ _)))⟩

/-! ## Lemmas: comment ordering and counts -/

theorem sortByCreated_cons (c : CommentRow) (l : List CommentRow) :
    sortByCreated (c :: l) = insertByCreated c (sortByCreated l) := rfl

theorem sortByCreated_eq_self (l : List CommentRow)
    (h : List.Pairwise (fun a b => a.created_at < b.created_at) l) :
    sortByCreated l = l := by
  induction l with
  | nil => rfl
  | cons c cs ih =>
    rw [sortByCreated_cons, ih h.of_cons]
    cases cs with
    | nil => rfl
    | cons d ds =>
      have hcd : c.created_at < d.created_at := (List.pairwise_cons.mp h).1 d (by simp)
      unfold insertByCreated
      rw [if_neg (by omega)]

theorem addComment_comments (st : Store) (iid u b : String) :
    (addComment st iid u b).2.comments =
      st.comments ++
        [{ id := st.nextCommentId, issue_id := iid, user := u, body := b,
           created_at := st.clock }] := rfl

theorem addComment_clock (st : Store) (iid u b : String) :
    (addComment st iid u b).2.clock = st.clock + 1 := rfl

theorem commentsWf_addComment (st : Store) (iid u b : String) (h : CommentsWf st) :
    CommentsWf (addComment st iid u b).2 := by
  obtain ⟨h1, h2⟩ := h
  constructor
  · rw [addComment_comments, List.pairwise_append]
    refine ⟨h1, by simp, ?_⟩
    intro a ha c hc
    simp at hc
    subst hc
    exact h2 a ha
  · rw [addComment_comments, addComment_clock]
    intro c hc
    rcases List.mem_append.mp hc with hc | hc
    · exact Nat.lt_succ_of_lt (h2 c hc)
    · simp at hc; subst hc; simp

theorem getComments_eq_filter (st : Store) (iid : String) (h : CommentsWf st) :
    getComments st iid =
      (st.comments.filter fun c => c.issue_id = iid).map
        fun c => { id := c.id, user := c.user, body := c.body, created_at := c.created_at } := by
  obtain ⟨h1, h2⟩ := h
  unfold getComments
  rw [sortByCreated_eq_self _ (List.Pairwise.filter _ h1)]

theorem getComments_addComment (st : Store) (iid u b : String) (h : CommentsWf st) :
    getComments (addComment st iid u b).2 iid =
      getComments st iid ++
        [{ id := st.nextCommentId, user := u, body := b, created_at := st.clock }] := by
  rw [getComments_eq_filter _ _ (commentsWf_addComment st iid u b h),
      getComments_eq_filter _ _ h, addComment_comments, List.filter_append]
  simp

theorem countComments_addComment_same (st : Store) (iid u b : String) :
    countComments (addComment st iid u b).2 iid = countComments st iid + 1 := by
  unfold countComments
  rw [addComment_comments, List.filter_append]
  simp

theorem countComments_addComment_other (st : Store) (iid u b x : String) (hx : x ≠ iid) :
    countComments (addComment st iid u b).2 x = countComments st x := by
  unfold countComments
  rw [addComment_comments, List.filter_append]
  have hne : iid ≠ x := fun hh => hx hh.symm
  simp [hne]

theorem sum_ite_prop_eq_length_filter {α : Type} (l : List α) (p : α → Prop)
    [DecidablePred p] :
    (l.map fun a => if p a then (1 : Nat) else 0).sum =
      (l.filter fun a => decide (p a)).length := by
  induction l with
  | nil => rfl
  | cons a l ih =>
    by_cases h : p a
    · simp [h, ih]
      omega
    · simp [h, ih]

theorem sum_ite_int_eq_length_filter {α : Type} (l : List α) (p : α → Prop)
    [DecidablePred p] :
    (l.map fun a => if p a then (1 : Int) else 0).sum =
      ((l.filter fun a => decide (p a)).length : Int) := by
  induction l with
  | nil => rfl
  | cons a l ih =>
    by_cases h : p a
    · simp [h, ih]
      omega
    · simp [h, ih]

theorem sumI64Aux_some (l : List Int) :
    ∀ (acc s : Int), sumI64Aux acc l = some s → s = acc + l.sum := by
  induction l with
  | nil =>
    intro acc s h
    unfold sumI64Aux at h
    injection h with h1
    rw [List.sum_nil]
    omega
  | cons x xs ih =>
    intro acc s h
    unfold sumI64Aux at h
    by_cases hin : inI64 (acc + x)
    · rw [if_pos hin] at h
      have hrec := ih (acc + x) s h
      rw [List.sum_cons]
      omega
    · rw [if_neg hin] at h
      exact absurd h (by simp)

theorem sumI64_some (l : List Int) (s : Int) (h : sumI64 l = some s) : s = l.sum := by
  have := sumI64Aux_some l 0 s h
  omega

theorem sumI64Aux_none_iff (l : List Int) :
    ∀ acc : Int, (sumI64Aux acc l = Option.none ↔
      ∃ p, p <+: l ∧ p ≠ [] ∧ ¬ inI64 (acc + p.sum)) := by
  induction l with
  | nil =>
    intro acc
    constructor
    · intro h
      exact absurd h (by simp [sumI64Aux])
    · rintro ⟨p, hp, hne, _⟩
      obtain ⟨t, ht⟩ := hp
      cases p with
      | nil => exact absurd rfl hne
      | cons y q => simp at ht
  | cons x xs ih =>
    intro acc
    unfold sumI64Aux
    by_cases hin : inI64 (acc + x)
    · rw [if_pos hin, ih (acc + x)]
      constructor
      · rintro ⟨p, hp, hne, hout⟩
        obtain ⟨t, ht⟩ := hp
        refine ⟨x :: p, ⟨t, by rw [List.cons_append, ht]⟩, by simp, ?_⟩
        intro hc
        apply hout
        unfold inI64 at hc ⊢
        simp only [List.sum_cons] at hc
        omega
      · rintro ⟨p, hp, hne, hout⟩
        obtain ⟨t, ht⟩ := hp
        cases p with
        | nil => exact absurd rfl hne
        | cons y q =>
          rw [List.cons_append] at ht
          injection ht with h1 h2
          subst h1
          cases q with
          | nil =>
            refine absurd ?_ hout
            unfold inI64 at hin ⊢
            simp only [List.sum_cons, List.sum_nil]
            omega
          | cons z w =>
            refine ⟨z :: w, ⟨t, h2⟩, by simp, ?_⟩
            intro hc
            apply hout
            unfold inI64 at hc ⊢
            simp only [List.sum_cons] at hc ⊢
            omega
    · rw [if_neg hin]
      constructor
      · intro _
        refine ⟨[x], ⟨xs, rfl⟩, by simp, ?_⟩
        simpa using hin
      · intro _
        rfl

theorem sumI64_none_iff (l : List Int) :
    sumI64 l = Option.none ↔ ∃ p, p <+: l ∧ ¬ inI64 p.sum := by
  unfold sumI64
  rw [sumI64Aux_none_iff l 0]
  constructor
  · rintro ⟨p, hp, _, hout⟩
    exact ⟨p, hp, by simpa using hout⟩
  · rintro ⟨p, hp, hout⟩
    have hne : p ≠ [] := by
      rintro rfl
      exact hout (by decide)
    exact ⟨p, hp, hne, by simpa using hout⟩

/-! ## Claim theorems -/

/-- C3 (amended): for every cycle id, whenever `get_cycle_analytics`
returns — no 64-bit `SUM` overflow — it returns `total_issues` = the
number of issues whose `cycle_id` matches, `completed` = the number of
those with status exactly `"done"` (case-sensitive),
`remaining = total_issues - completed`, `remaining_points` = the sum
over non-`"done"` issues of `estimate_points` when set, else 1 per
unestimated issue, and `progress_pct` = the `int()` truncation of the
IEEE binary64 evaluation of `completed / total * 100` (0 when the cycle
is empty) — which is not always the exact integer truncation of the
spec's words.  The second conjunct settles the error path: the call
raises SQLite's "integer overflow" exactly when some prefix of one of
the two running sums leaves the signed 64-bit range.  The three closing
conjuncts instantiate the success path: 1 done of 2 gives 50, a status
of `"Done"` is not counted as completed, and 1 done of 3 gives 33 as the
spec's example expects. -/
theorem C3_get_cycle_analytics :
    (∀ (st : Store) (cid : String) (a : CycleAnalytics),
      getCycleAnalytics st cid = some a →
        a.total_issues = (st.issues.filter fun r => r.cycle_id = some cid).length ∧
        a.completed = ((st.issues.filter fun r => r.cycle_id = some cid).filter
            fun r => r.status = "done").length ∧
        a.remaining = (st.issues.filter fun r => r.cycle_id = some cid).length -
          ((st.issues.filter fun r => r.cycle_id = some cid).filter
            fun r => r.status = "done").length ∧
        a.progress_pct = progressPct
          (((st.issues.filter fun r => r.cycle_id = some cid).filter
            fun r => r.status = "done").length)
          ((st.issues.filter fun r => r.cycle_id = some cid).length) ∧
        a.remaining_points =
          ((((st.issues.filter fun r => r.cycle_id = some cid).filter
              fun r => r.status ≠ "done").map fun r =>
            match r.estimate_points with
            | some e => e
            | Option.none => 1).sum)) ∧
    (∀ (st : Store) (cid : String),
      getCycleAnalytics st cid = Option.none ↔
        ((∃ p, p <+: ((st.issues.filter fun r => r.cycle_id = some cid).map
              fun r => if r.status = "done" then (1 : Int) else 0) ∧
            ¬ inI64 p.sum) ∨
         (∃ p, p <+: (((st.issues.filter fun r => r.cycle_id = some cid).filter
              fun r => r.status ≠ "done").map fun r =>
            match r.estimate_points with
            | some e => e
            | Option.none => 1) ∧
            ¬ inI64 p.sum))) ∧
    getCycleAnalytics exTwoOneDone "c" =
      some { total_issues := 2, completed := 1, remaining := 1, progress_pct := 50,
             remaining_points := 1 } ∧
    getCycleAnalytics exTwoOneCapDone "c" =
      some { total_issues := 2, completed := 0, remaining := 2, progress_pct := 0,
             remaining_points := 2 } ∧
    getCycleAnalytics exThreeOneDone "c" =
      some { total_issues := 3, completed := 1, remaining := 2, progress_pct := 33,
             remaining_points := 2 } := by
  refine ⟨?_, ?_, by decide, by decide, by decide⟩
  · intro st cid a h
    dsimp only [getCycleAnalytics] at h
    split at h
    · exact absurd h (by simp)
    · rename_i completedI hA
      split at h
      · exact absurd h (by simp)
      · rename_i remainingPoints hB
        cases h
        have hsA := sumI64_some _ _ hA
        have hsB := sumI64_some _ _ hB
        rw [sum_ite_int_eq_length_filter] at hsA
        dsimp only
        refine ⟨rfl, by omega, by omega, ?_, hsB⟩
        have hc : completedI.toNat =
            ((st.issues.filter fun r => r.cycle_id = some cid).filter
              fun r => r.status = "done").length := by omega
        rw [hc]
  · intro st cid
    dsimp only [getCycleAnalytics]
    split
    · rename_i hA
      constructor
      · intro _
        exact Or.inl ((sumI64_none_iff _).mp hA)
      · intro _
        rfl
    · rename_i completedI hA
      split
      · rename_i hB
        constructor
        · intro _
          exact Or.inr ((sumI64_none_iff _).mp hB)
        · intro _
          rfl
      · rename_i remainingPoints hB
        constructor
        · intro hcontra
          exact absurd hcontra (by simp)
        · rintro (hover | hover)
          · rw [(sumI64_none_iff _).mpr hover] at hA
            exact absurd hA (by simp)
          · rw [(sumI64_none_iff _).mpr hover] at hB
            exact absurd hB (by simp)

/-- C3 witness: the success-path characterization applied to the
concrete three-issue cycle with one issue `"done"` — each clause holds
of the returned record, whose `progress_pct` is the 33 the spec's
example expects. -/
theorem C3_get_cycle_analytics_witness :
    ({ total_issues := 3, completed := 1, remaining := 2, progress_pct := 33,
       remaining_points := 2 } : CycleAnalytics).total_issues
      = (exThreeOneDone.issues.filter fun r => r.cycle_id = some "c").length ∧
    ({ total_issues := 3, completed := 1, remaining := 2, progress_pct := 33,
       remaining_points := 2 } : CycleAnalytics).completed
      = ((exThreeOneDone.issues.filter fun r => r.cycle_id = some "c").filter
          fun r => r.status = "done").length ∧
    ({ total_issues := 3, completed := 1, remaining := 2, progress_pct := 33,
       remaining_points := 2 } : CycleAnalytics).remaining
      = (exThreeOneDone.issues.filter fun r => r.cycle_id = some "c").length -
        ((exThreeOneDone.issues.filter fun r => r.cycle_id = some "c").filter
          fun r => r.status = "done").length ∧
    ({ total_issues := 3, completed := 1, remaining := 2, progress_pct := 33,
       remaining_points := 2 } : CycleAnalytics).progress_pct = progressPct
        (((exThreeOneDone.issues.filter fun r => r.cycle_id = some "c").filter
          fun r => r.status = "done").length)
        ((exThreeOneDone.issues.filter fun r => r.cycle_id = some "c").length) ∧
    ({ total_issues := 3, completed := 1, remaining := 2, progress_pct := 33,
       remaining_points := 2 } : CycleAnalytics).remaining_points =
      ((((exThreeOneDone.issues.filter fun r => r.cycle_id = some "c").filter
          fun r => r.status ≠ "done").map fun r =>
        match r.estimate_points with
        | some e => e
        | Option.none => 1).sum) :=
  C3_get_cycle_analytics.1 exThreeOneDone "c"
    { total_issues := 3, completed := 1, remaining := 2, progress_pct := 33,
      remaining_points := 2 } (by decide)

set_option maxRecDepth 40000 in
/-- C3 counterexample to the exact-truncation reading of the claim: with
29 of 100 cycle issues done, the program reports `progress_pct = 28`,
while the claimed integer truncation of `completed / total * 100` is
`29 * 100 / 100 = 29` — the binary64 product `29 / 100 * 100` falls just
below 29 and `int()` truncates it down. -/
theorem C3_progress_pct_counterexample :
    getCycleAnalytics exHundred "c" =
      some { total_issues := 100, completed := 29, remaining := 71,
             progress_pct := 28, remaining_points := 71 } ∧
    28 ≠ 29 * 100 / 100 := ⟨by decide, by decide⟩

/-- C2: `update` returns false and performs no write when no field of the
call survives the allow-list filter; whenever it returns at all, it
returns true exactly when the surviving field set was non-empty — in
particular an update naming an allow-listed field against an id matching
no stored issue still returns true, leaving every row unchanged (only the
clock the operation read has moved). -/
theorem C2_update_return_semantics :
    (∀ (st : Store) (iid : String) (kwargs : List (String × PyVal)),
      (kwargs.filter fun kv => updateAllowedFields.contains kv.1).isEmpty →
      updateIssue st iid kwargs = some (false, st)) ∧
    (∀ (st : Store) (iid : String) (kwargs : List (String × PyVal)) (b : Bool) (st2 : Store),
      updateIssue st iid kwargs = some (b, st2) →
      (b = true ↔ (kwargs.filter fun kv => updateAllowedFields.contains kv.1).isEmpty = false)) ∧
    (∀ (st : Store) (iid : String) (kwargs : List (String × PyVal)),
      (∀ r ∈ st.issues, r.id ≠ iid) →
      (kwargs.filter fun kv => updateAllowedFields.contains kv.1).isEmpty = false →
      ∀ conv, (kwargs.filter fun kv => updateAllowedFields.contains kv.1).mapM
          convertListField = some conv →
      updateIssue st iid kwargs = some (true, { st with clock := st.clock + 1 })) := by
  refine ⟨?_, ?_, ?_⟩
  · intro st iid kwargs hempty
    unfold updateIssue
    rw [if_pos hempty]
  · intro st iid kwargs b st2 h
    unfold updateIssue at h
    by_cases hempty : (kwargs.filter fun kv => updateAllowedFields.contains kv.1).isEmpty
    · rw [if_pos hempty] at h
      injection h with h2
      cases h2
      rw [hempty]
      simp
    · rw [Bool.not_eq_true] at hempty
      rw [if_neg (by rw [hempty]; simp)] at h
      split at h
      · cases h
      · dsimp only at h
        split at h
        · cases h
        · injection h with h2
          cases h2
          exact iff_of_true rfl hempty
  · intro st iid kwargs hno hempty conv hconv
    unfold updateIssue
    rw [if_neg (by rw [hempty]; simp), hconv]
    have hm : st.issues.mapM (fun r =>
        if r.id = iid then
          applyKwargs (conv ++ [("updated_at", PyVal.time st.clock)]) r
        else some r) = some st.issues := by
      apply mapM_option_id
      intro r hr
      rw [if_neg (hno r hr)]
    dsimp only
    rw [hm]

/-- C2 witness: a coherent update against an id held by no issue in a
concrete store: both hypotheses hold and the call returns true while
leaving every row unchanged. -/
theorem C2_update_return_semantics_witness :
    (∀ r ∈ exTwoOneDone.issues, r.id ≠ "zzz") ∧
    (([(("status", PyVal.str "done"))].filter
        fun kv => updateAllowedFields.contains kv.1).isEmpty = false) ∧
    updateIssue exTwoOneDone "zzz" [("status", PyVal.str "done")] =
      some (true, { exTwoOneDone with clock := exTwoOneDone.clock + 1 }) :=
  ⟨by decide, by decide,
    C2_update_return_semantics.2.2 exTwoOneDone "zzz" [("status", PyVal.str "done")]
      (by decide) (by decide) [("status", PyVal.str "done")] (by decide)⟩

/-- C6: `bulk_update` with an empty id list returns 0 and changes nothing,
whatever the fields; its allow-list is the update allow-list minus
`due_date` and `estimate_points`; a non-empty id list whose fields all get
filtered away also returns 0 untouched; and a executed bulk update returns
the number of rows matched by `id IN (...)` and rewrites exactly the
matched rows, every one through the same field assignments.  The final
conjuncts run the spec's example: updating three existing issues to
`in_progress` returns 3 and a filtered `get` then returns exactly those
three. -/
theorem C6_bulk_update :
    (∀ (st : Store) (kwargs : List (String × PyVal)),
      bulkUpdate st [] kwargs = some (0, st)) ∧
    (bulkAllowedFields = updateAllowedFields.filter
      fun k => !(k = "due_date" || k = "estimate_points")) ∧
    (∀ (st : Store) (ids : List String) (kwargs : List (String × PyVal)),
      (kwargs.filter fun kv => bulkAllowedFields.contains kv.1).isEmpty →
      bulkUpdate st ids kwargs = some (0, st)) ∧
    (∀ (st : Store) (ids : List String) (kwargs : List (String × PyVal)) (n : Nat)
        (st2 : Store),
      ids ≠ [] →
      (kwargs.filter fun kv => bulkAllowedFields.contains kv.1).isEmpty = false →
      bulkUpdate st ids kwargs = some (n, st2) →
      n = (st.issues.filter fun r => ids.contains r.id).length ∧
      st2.comments = st.comments ∧
      ∃ conv, (kwargs.filter fun kv => bulkAllowedFields.contains kv.1).mapM
          convertListField = some conv ∧
        List.Forall₂ (fun r r2 =>
          (ids.contains r.id = false → r2 = r) ∧
          (ids.contains r.id = true →
            applyKwargs (conv ++ [("updated_at", PyVal.time st.clock)]) r = some r2))
          st.issues st2.issues) ∧
    (bulkUpdate exThreePlain ["a", "b", "x"]
        [("status", PyVal.str "in_progress")]).map Prod.fst = some 3 ∧
    ((getIssues ((bulkUpdate exThreePlain ["a", "b", "x"]
        [("status", PyVal.str "in_progress")]).getD (0, emptyStore)).2 "p"
        { status := some "in_progress" }).map fun l => l.map Issue.id) =
      some ["a", "b", "x"] := by
  refine ⟨?_, by decide, ?_, ?_, by decide, by decide⟩
  · intro st kwargs
    rfl
  · intro st ids kwargs hempty
    unfold bulkUpdate
    by_cases hids : ids.isEmpty
    · rw [if_pos hids]
    · rw [if_neg hids, if_pos hempty]
  · intro st ids kwargs n st2 hids hempty h
    unfold bulkUpdate at h
    rw [if_neg (by simp [hids]), if_neg (by rw [hempty]; simp)] at h
    split at h
    · cases h
    · dsimp only at h
      rename_i cnv hc
      split at h
      · cases h
      · rename_i issues hm
        injection h with h2
        cases h2
        constructor
        · rfl
        constructor
        · rfl
        refine ⟨cnv, hc, ?_⟩
        have hrel := (mapM_option_some_iff _ _ _).mp hm
        refine hrel.imp ?_
        intro r r2 hr
        by_cases hcont : ids.contains r.id
        · rw [if_pos hcont] at hr
          exact ⟨fun hf => (by rw [hcont] at hf; cases hf), fun _ => hr⟩
        · rw [if_neg hcont] at hr
          injection hr with hr2
          exact ⟨fun _ => hr2.symm, fun ht => absurd ht hcont⟩

theorem updateIssue_filter_idem (st : Store) (iid : String)
    (kwargs : List (String × PyVal)) :
    updateIssue st iid (kwargs.filter fun kv => updateAllowedFields.contains kv.1) =
      updateIssue st iid kwargs := by
  unfold updateIssue
  rw [List.filter_filter]
  simp only [Bool.and_self]

theorem applyKwargs_append (l1 l2 : List (String × PyVal)) (r : IssueRow) :
    applyKwargs (l1 ++ l2) r = (applyKwargs l1 r).bind (applyKwargs l2) := by
  unfold applyKwargs
  rw [List.foldlM_append]
  cases applyKwargs l1 r <;> simp [applyKwargs]

theorem applyKwargs_updTs (l : List (String × PyVal)) (t : Nat) (r r2 : IssueRow)
    (h : applyKwargs (l ++ [("updated_at", PyVal.time t)]) r = some r2) :
    ∃ r1, applyKwargs l r = some r1 ∧ r2 = { r1 with updated_at := t } := by
  rw [applyKwargs_append] at h
  cases h1 : applyKwargs l r with
  | none => rw [h1] at h; cases h
  | some r1 =>
    rw [h1] at h
    simp only [Option.some_bind] at h
    have : applyKwargs [("updated_at", PyVal.time t)] r1 =
        some { r1 with updated_at := t } := rfl
    rw [this] at h
    injection h with h2
    exact ⟨r1, rfl, h2.symm⟩

theorem convertListField_key (kv kv2 : String × PyVal)
    (h : convertListField kv = some kv2) : kv2.1 = kv.1 := by
  unfold convertListField at h
  split at h
  · split at h
    · injection h with h2; rw [← h2]
    · cases h
  · injection h with h2; rw [← h2]

theorem forall₂_mem_right {α β : Type} {R : α → β → Prop} :
    ∀ {l1 : List α} {l2 : List β}, List.Forall₂ R l1 l2 →
      ∀ b ∈ l2, ∃ a ∈ l1, R a b := by
  intro l1 l2 h
  induction h with
  | nil => intro b hb; cases hb
  | cons hr _ ih =>
    intro b hb
    rcases List.mem_cons.mp hb with hb | hb
    · subst hb; exact ⟨_, by simp, hr⟩
    · rcases ih b hb with ⟨a, ha, hab⟩
      exact ⟨a, by simp [ha], hab⟩

/-- C7: an accepted `update` rewrites only the targeted issue; on that
issue only the named allow-listed fields plus `updated_at` change, with
`updated_at` always refreshed to the operation's `now`; unknown field
names are silently dropped (filtering the call to the allow-list gives the
identical result); the identity, sequencing and counter columns never
change; and every other issue and the comments table are untouched. -/
theorem C7_update_frame (st : Store) (iid : String) (kwargs : List (String × PyVal))
    (st2 : Store) (h : updateIssue st iid kwargs = some (true, st2)) :
    updateIssue st iid (kwargs.filter fun kv => updateAllowedFields.contains kv.1) =
      updateIssue st iid kwargs ∧
    st2.comments = st.comments ∧
    List.Forall₂ (fun r r2 =>
      (r.id ≠ iid → r2 = r) ∧
      (r.id = iid →
        r2.updated_at = st.clock ∧
          r2.id = r.id ∧
          r2.workspace_id = r.workspace_id ∧
          r2.project_id = r.project_id ∧
          r2.sequence_id = r.sequence_id ∧
          r2.type = r.type ∧
          r2.created_by = r.created_by ∧
          r2.created_at = r.created_at ∧
          r2.link_count = r.link_count ∧
          r2.attachment_count = r.attachment_count ∧
          r2.comment_count = r.comment_count ∧
          ((∀ kv ∈ kwargs, kv.1 ≠ "title") → r2.title = r.title) ∧
          ((∀ kv ∈ kwargs, kv.1 ≠ "description") → r2.description = r.description) ∧
          ((∀ kv ∈ kwargs, kv.1 ≠ "status") → r2.status = r.status) ∧
          ((∀ kv ∈ kwargs, kv.1 ≠ "priority") → r2.priority = r.priority) ∧
          ((∀ kv ∈ kwargs, kv.1 ≠ "assignees") → r2.assignees = r.assignees) ∧
          ((∀ kv ∈ kwargs, kv.1 ≠ "labels") → r2.labels = r.labels) ∧
          ((∀ kv ∈ kwargs, kv.1 ≠ "cycle_id") → r2.cycle_id = r.cycle_id) ∧
          ((∀ kv ∈ kwargs, kv.1 ≠ "module_id") → r2.module_id = r.module_id) ∧
          ((∀ kv ∈ kwargs, kv.1 ≠ "due_date") → r2.due_date = r.due_date) ∧
          ((∀ kv ∈ kwargs, kv.1 ≠ "estimate_points") → r2.estimate_points = r.estimate_points) ∧
          True))
      st.issues st2.issues := by
  unfold updateIssue at h
  by_cases hempty : (kwargs.filter fun kv => updateAllowedFields.contains kv.1).isEmpty
  · rw [if_pos hempty] at h
    injection h with h2
    injection h2 with hb hst
    cases hb
  · rw [if_neg hempty] at h
    split at h
    · cases h
    · dsimp only at h
      rename_i cnv hc
      split at h
      · cases h
      · rename_i issues hm
        injection h with h2
        injection h2 with hb hst
        subst hst
        refine ⟨updateIssue_filter_idem st iid kwargs, rfl, ?_⟩
        have hkeys : ∀ kv2 ∈ cnv, ∀ fname : String,
              (∀ kv ∈ kwargs, kv.1 ≠ fname) → kv2.1 ≠ fname := by
            intro kv2 hkv2 fname hall
            have hf2 := (mapM_option_some_iff _ _ _).mp hc
            rcases forall₂_mem_right hf2 kv2 hkv2 with ⟨kv1, hkv1, hcv⟩
            rw [convertListField_key kv1 kv2 hcv]
            exact hall kv1 (List.mem_of_mem_filter hkv1)
        have hrel := (mapM_option_some_iff _ _ _).mp hm
        refine hrel.imp ?_
        intro r r2 hr
        by_cases hid : r.id = iid
        · rw [if_pos hid] at hr
          rcases applyKwargs_updTs cnv st.clock r r2 hr with ⟨r1, h1, h2⟩
          obtain ⟨e1, e2, e3, e4, e5, e6, e7, e8, e9, e10,
            f1, f2, f3, f4, f5, f6, f7, f8, f9, f10, f11⟩ :=
            applyKwargs_frame cnv r r1 h1
          subst h2
          refine ⟨fun hne => absurd hid hne, fun _ => ?_⟩
          refine ⟨rfl, e1, e2, e3, e4, e5, e6, e7, e8, e9, e10,
            fun hall => f1 (fun kv hkv => hkeys kv hkv _ hall),
            fun hall => f2 (fun kv hkv => hkeys kv hkv _ hall),
            fun hall => f3 (fun kv hkv => hkeys kv hkv _ hall),
            fun hall => f4 (fun kv hkv => hkeys kv hkv _ hall),
            fun hall => f5 (fun kv hkv => hkeys kv hkv _ hall),
            fun hall => f6 (fun kv hkv => hkeys kv hkv _ hall),
            fun hall => f7 (fun kv hkv => hkeys kv hkv _ hall),
            fun hall => f8 (fun kv hkv => hkeys kv hkv _ hall),
            fun hall => f9 (fun kv hkv => hkeys kv hkv _ hall),
            fun hall => f10 (fun kv hkv => hkeys kv hkv _ hall),
            trivial⟩
        · rw [if_neg hid] at hr
          injection hr with hr2
          exact ⟨fun _ => hr2.symm, fun ht => absurd ht hid⟩

/-- C6 witness: the executed-branch conclusions at a concrete input — three
matched rows give count 3 — and the no-surviving-field branch returning 0
untouched. -/
theorem C6_bulk_update_witness :
    ((["a", "b", "x"] : List String) ≠ []) ∧
    (([("status", PyVal.str "in_progress")].filter
        fun kv => bulkAllowedFields.contains kv.1).isEmpty = false) ∧
    (([("bogus", PyVal.str "z")].filter
        fun kv => bulkAllowedFields.contains kv.1).isEmpty = true) ∧
    bulkUpdate exThreePlain ["a"] [("bogus", PyVal.str "z")] = some (0, exThreePlain) ∧
    bulkUpdate exThreePlain ["a", "b", "x"] [("status", PyVal.str "in_progress")] =
      some (3, ((bulkUpdate exThreePlain ["a", "b", "x"]
        [("status", PyVal.str "in_progress")]).getD (0, emptyStore)).2) ∧
    3 = (exThreePlain.issues.filter
      fun r => (["a", "b", "x"] : List String).contains r.id).length :=
  ⟨by decide, by decide, by decide,
    C6_bulk_update.2.2.1 exThreePlain ["a"] [("bogus", PyVal.str "z")] (by decide),
    by decide,
    (C6_bulk_update.2.2.2.1 exThreePlain ["a", "b", "x"]
      [("status", PyVal.str "in_progress")] 3
      ((bulkUpdate exThreePlain ["a", "b", "x"]
        [("status", PyVal.str "in_progress")]).getD (0, emptyStore)).2
      (by decide) (by decide) (by decide)).1⟩

/-- C7 witness: an accepted concrete update (one allow-listed field, one
unknown field) on a three-issue store; the hypothesis holds by computation
and the unknown-fields-dropped conclusion is extracted. -/
theorem C7_update_frame_witness :
    updateIssue exThreePlain "a" [("title", PyVal.str "N"), ("bogus", PyVal.str "z")] =
      some (true, ((updateIssue exThreePlain "a"
        [("title", PyVal.str "N"), ("bogus", PyVal.str "z")]).getD (false, emptyStore)).2) ∧
    updateIssue exThreePlain "a"
        ([("title", PyVal.str "N"), ("bogus", PyVal.str "z")].filter
          fun kv => updateAllowedFields.contains kv.1) =
      updateIssue exThreePlain "a" [("title", PyVal.str "N"), ("bogus", PyVal.str "z")] :=
  ⟨by decide,
    (C7_update_frame exThreePlain "a" [("title", PyVal.str "N"), ("bogus", PyVal.str "z")]
      ((updateIssue exThreePlain "a"
        [("title", PyVal.str "N"), ("bogus", PyVal.str "z")]).getD (false, emptyStore)).2
      (by decide)).1⟩

theorem createIssue_seq_only (st : Store) (i p t d ty pr : String)
    (as ls : List String) :
    ((createIssue st i p t d ty pr as ls).2.issues.map fun r => r.sequence_id) =
      (st.issues.map fun r => r.sequence_id) ++ [maxSeq st p + 1] := by
  simp [createIssue]

theorem run_creates_seqs (p : String) :
    ∀ (ops : List Op) (st : Store), (∀ op ∈ ops, isCreateFor p op) →
    (((run st ops).issues.map fun r => r.sequence_id) =
      (st.issues.map fun r => r.sequence_id) ++
        List.range' (maxSeq st p + 1) ops.length) ∧
    maxSeq (run st ops) p = maxSeq st p + ops.length := by
  intro ops
  induction ops with
  | nil => intro st h; simp [run]
  | cons op ops ih =>
    intro st h
    have hop := h op (by simp)
    cases op with
    | update iid kw => exact hop.elim
    | bulk ids kw => exact hop.elim
    | toCycle i c => exact hop.elim
    | toModule i m => exact hop.elim
    | comment i u b => exact hop.elim
    | create i pid t d ty pr as ls =>
      have hpid : pid = p := hop
      subst hpid
      have hrun : run st (Op.create i pid t d ty pr as ls :: ops) =
          run (createIssue st i pid t d ty pr as ls).2 ops := rfl
      rw [hrun]
      obtain ⟨ih1, ih2⟩ :=
        ih (createIssue st i pid t d ty pr as ls).2 fun o ho => h o (by simp [ho])
      rw [maxSeq_createIssue_same] at ih1 ih2
      constructor
      · rw [ih1, createIssue_seq_only, List.append_assoc]
        rfl
      · rw [ih2]
        simp only [List.length_cons]
        omega

/-- C1: `create` assigns the new issue the sequence number `1 + max` of the
existing sequence numbers of its project (the empty maximum being 0);
therefore successive creates against a project P with no prior issues
number the new rows 1, 2, 3, … in call order, and creates against P leave
every other project's maximum — hence the number its next create gets —
untouched, so a fresh project Q starts at 1 independently of P. -/
theorem C1_sequence_numbers :
    (∀ (st : Store) (i p t d ty pr : String) (as ls : List String),
      ((createIssue st i p t d ty pr as ls).2.issues.map
          fun r => (r.project_id, r.sequence_id)) =
        (st.issues.map fun r => (r.project_id, r.sequence_id)) ++
          [(p, maxSeq st p + 1)]) ∧
    (∀ (st : Store) (p : String), (∀ r ∈ st.issues, r.project_id ≠ p) →
      maxSeq st p = 0) ∧
    (∀ (ops : List Op) (st : Store) (p : String),
      (∀ op ∈ ops, isCreateFor p op) → (∀ r ∈ st.issues, r.project_id ≠ p) →
      ((run st ops).issues.map fun r => r.sequence_id) =
        (st.issues.map fun r => r.sequence_id) ++ List.range' 1 ops.length) ∧
    (∀ (ops : List Op) (st : Store) (p q : String), p ≠ q →
      (∀ op ∈ ops, isCreateFor p op) →
      maxSeq (run st ops) q = maxSeq st q) := by
  refine ⟨createIssue_issues_map_seq, maxSeq_zero_of_no_project, ?_, ?_⟩
  · intro ops st p hops hno
    have := (run_creates_seqs p ops st hops).1
    rwa [maxSeq_zero_of_no_project st p hno] at this
  · intro ops st p q hpq hops
    induction ops generalizing st with
    | nil => rfl
    | cons op ops ih =>
      have hop := hops op (by simp)
      cases op with
      | update iid kw => exact hop.elim
      | bulk ids kw => exact hop.elim
      | toCycle i c => exact hop.elim
      | toModule i m => exact hop.elim
      | comment i u b => exact hop.elim
      | create i pid t d ty pr as ls =>
        have hpid : pid = p := hop
        subst hpid
        have hrun : run st (Op.create i pid t d ty pr as ls :: ops) =
            run (createIssue st i pid t d ty pr as ls).2 ops := rfl
        rw [hrun, ih _ fun o ho => hops o (by simp [ho]),
          maxSeq_createIssue_other st i pid t d ty pr as ls q hpq]

/-- C1 witness: two creates against project `"p"` from the empty store are
numbered 1 then 2, and they leave project `"q"`'s maximum at 0. -/
theorem C1_sequence_numbers_witness :
    (∀ op ∈ [Op.create "i1" "p" "A" "" "task" "medium" [] [],
             Op.create "i2" "p" "B" "" "task" "medium" [] []], isCreateFor "p" op) ∧
    (∀ r ∈ emptyStore.issues, r.project_id ≠ "p") ∧
    ((run emptyStore [Op.create "i1" "p" "A" "" "task" "medium" [] [],
        Op.create "i2" "p" "B" "" "task" "medium" [] []]).issues.map
      fun r => r.sequence_id) = [1, 2] ∧
    ("p" ≠ "q") ∧
    maxSeq (run emptyStore [Op.create "i1" "p" "A" "" "task" "medium" [] [],
        Op.create "i2" "p" "B" "" "task" "medium" [] []]) "q" = maxSeq emptyStore "q" := by
  refine ⟨by simp [isCreateFor], by simp [emptyStore], ?_, by decide, ?_⟩
  · have := C1_sequence_numbers.2.2.1
      [Op.create "i1" "p" "A" "" "task" "medium" [] [],
       Op.create "i2" "p" "B" "" "task" "medium" [] []] emptyStore "p"
      (by simp [isCreateFor]) (by simp [emptyStore])
    simpa [emptyStore] using this
  · exact C1_sequence_numbers.2.2.2
      [Op.create "i1" "p" "A" "" "task" "medium" [] [],
       Op.create "i2" "p" "B" "" "task" "medium" [] []] emptyStore "p" "q"
      (by decide) (by simp [isCreateFor])

/-! ## Lemmas: the comment-count invariant -/

theorem countComments_eq_zero (st : Store) (i : String)
    (h : ∀ c ∈ st.comments, c.issue_id ≠ i) : countComments st i = 0 := by
  unfold countComments
  rw [List.filter_eq_nil_iff.mpr fun c hc => by simpa using h c hc]
  rfl

theorem inv_of_rows_preserved (st st2 : Store) (hc : st2.comments = st.comments)
    (hrel : List.Forall₂ (fun r r2 => r2.id = r.id ∧ r2.comment_count = r.comment_count)
      st.issues st2.issues)
    (h : CommentCountInv st) : CommentCountInv st2 := by
  intro r2 hr2
  rcases forall₂_mem_right hrel r2 hr2 with ⟨r, hr, hid, hcc⟩
  have : countComments st2 r2.id = countComments st r.id := by
    unfold countComments
    rw [hc, hid]
  rw [this, hcc]
  exact h r hr

theorem updateIssue_rows_preserved (st : Store) (iid : String)
    (kw : List (String × PyVal)) (b : Bool) (st2 : Store)
    (h : updateIssue st iid kw = some (b, st2)) :
    st2.comments = st.comments ∧
    List.Forall₂ (fun r r2 => r2.id = r.id ∧ r2.comment_count = r.comment_count)
      st.issues st2.issues := by
  unfold updateIssue at h
  by_cases hempty : (kw.filter fun kv => updateAllowedFields.contains kv.1).isEmpty
  · rw [if_pos hempty] at h
    injection h with h2
    injection h2 with hb hst
    subst hst
    exact ⟨rfl, List.forall₂_same.mpr fun x _ => ⟨rfl, rfl⟩⟩
  · rw [if_neg hempty] at h
    split at h
    · cases h
    · dsimp only at h
      rename_i cnv hc
      split at h
      · cases h
      · rename_i issues hm
        injection h with h2
        injection h2 with hb hst
        subst hst
        refine ⟨rfl, ((mapM_option_some_iff _ _ _).mp hm).imp ?_⟩
        intro r r2 hr
        by_cases hid : r.id = iid
        · rw [if_pos hid] at hr
          obtain ⟨e1, _, _, _, _, _, _, _, _, e10, _⟩ := applyKwargs_frame _ r r2 hr
          exact ⟨e1, e10⟩
        · rw [if_neg hid] at hr
          injection hr with hr2
          subst hr2
          exact ⟨rfl, rfl⟩

theorem bulkUpdate_rows_preserved (st : Store) (ids : List String)
    (kw : List (String × PyVal)) (n : Nat) (st2 : Store)
    (h : bulkUpdate st ids kw = some (n, st2)) :
    st2.comments = st.comments ∧
    List.Forall₂ (fun r r2 => r2.id = r.id ∧ r2.comment_count = r.comment_count)
      st.issues st2.issues := by
  unfold bulkUpdate at h
  by_cases hids : ids.isEmpty
  · rw [if_pos hids] at h
    injection h with h2
    injection h2 with hn hst
    subst hst
    exact ⟨rfl, List.forall₂_same.mpr fun x _ => ⟨rfl, rfl⟩⟩
  · rw [if_neg hids] at h
    by_cases hempty : (kw.filter fun kv => bulkAllowedFields.contains kv.1).isEmpty
    · rw [if_pos hempty] at h
      injection h with h2
      injection h2 with hn hst
      subst hst
      exact ⟨rfl, List.forall₂_same.mpr fun x _ => ⟨rfl, rfl⟩⟩
    · rw [if_neg hempty] at h
      split at h
      · cases h
      · dsimp only at h
        rename_i cnv hc
        split at h
        · cases h
        · rename_i issues hm
          injection h with h2
          injection h2 with hn hst
          subst hst
          refine ⟨rfl, ((mapM_option_some_iff _ _ _).mp hm).imp ?_⟩
          intro r r2 hr
          by_cases hid : ids.contains r.id
          · rw [if_pos hid] at hr
            obtain ⟨e1, _, _, _, _, _, _, _, _, e10, _⟩ := applyKwargs_frame _ r r2 hr
            exact ⟨e1, e10⟩
          · rw [if_neg hid] at hr
            injection hr with hr2
            subst hr2
            exact ⟨rfl, rfl⟩

theorem inv_addComment (st : Store) (iid u b : String) (h : CommentCountInv st) :
    CommentCountInv (addComment st iid u b).2 := by
  intro r2 hr2
  have hr2' : r2 ∈ st.issues.map fun r =>
      if r.id = iid then { r with comment_count := r.comment_count + 1 } else r := hr2
  rcases List.mem_map.mp hr2' with ⟨r, hr, hfr⟩
  by_cases hid : r.id = iid
  · rw [if_pos hid] at hfr
    subst hfr
    have hcc : countComments (addComment st iid u b).2 r.id =
        countComments st r.id + 1 := by
      rw [hid]
      exact countComments_addComment_same st iid u b
    rw [hcc]
    have := h r hr
    simp [this]
  · rw [if_neg hid] at hfr
    subst hfr
    rw [countComments_addComment_other st iid u b r.id hid]
    exact h r hr

theorem inv_step (st : Store) (op : Op) (h : CommentCountInv st)
    (hadm : match op with
      | .create i _ _ _ _ _ _ _ => FreshId st i
      | _ => True) : CommentCountInv (step st op) := by
  cases op with
  | create i pid t d ty pr as ls =>
    intro r2 hr2
    have hfresh : FreshId st i := hadm
    rcases List.mem_append.mp hr2 with hr2 | hr2
    · have : countComments (step st (Op.create i pid t d ty pr as ls)) r2.id =
          countComments st r2.id := rfl
      rw [this]
      exact h r2 hr2
    · simp only [List.mem_singleton] at hr2
      subst hr2
      have : countComments st i = 0 := countComments_eq_zero st i hfresh.2
      exact this.symm
  | update iid kw =>
    have hstep : step st (Op.update iid kw) =
        (match updateIssue st iid kw with
         | some (_, st') => st'
         | Option.none => st) := rfl
    rw [hstep]
    cases hu : updateIssue st iid kw with
    | none => exact h
    | some p =>
      obtain ⟨b2, st2⟩ := p
      obtain ⟨hc, hrel⟩ := updateIssue_rows_preserved st iid kw b2 st2 hu
      exact inv_of_rows_preserved st st2 hc hrel h
  | bulk ids kw =>
    have hstep : step st (Op.bulk ids kw) =
        (match bulkUpdate st ids kw with
         | some (_, st') => st'
         | Option.none => st) := rfl
    rw [hstep]
    cases hu : bulkUpdate st ids kw with
    | none => exact h
    | some p =>
      obtain ⟨n2, st2⟩ := p
      obtain ⟨hc, hrel⟩ := bulkUpdate_rows_preserved st ids kw n2 st2 hu
      exact inv_of_rows_preserved st st2 hc hrel h
  | toCycle i c =>
    refine inv_of_rows_preserved st _ rfl ?_ h
    rw [show step st (Op.toCycle i c) = (addToCycle st i c).2 from rfl]
    have : (addToCycle st i c).2.issues = st.issues.map fun r =>
        if r.id = i then { r with cycle_id := some c } else r := rfl
    rw [this, List.forall₂_map_right_iff]
    refine List.forall₂_same.mpr fun r _ => ?_
    by_cases hid : r.id = i <;> simp [hid]
  | toModule i m =>
    refine inv_of_rows_preserved st _ rfl ?_ h
    rw [show step st (Op.toModule i m) = (addToModule st i m).2 from rfl]
    have : (addToModule st i m).2.issues = st.issues.map fun r =>
        if r.id = i then { r with module_id := some m } else r := rfl
    rw [this, List.forall₂_map_right_iff]
    refine List.forall₂_same.mpr fun r _ => ?_
    by_cases hid : r.id = i <;> simp [hid]
  | comment i u b => exact inv_addComment st i u b h

/-- C5: the denormalized `comment_count` invariant — after any admissible
trace of the mutating operations (admissible: each `create`'s generated
uuid is globally fresh), every stored issue's `comment_count` equals the
number of comment rows referencing it; and one `comment` call inserts
exactly one comment row and increments exactly the matching issues'
counters by one in the same committed step. -/
theorem C5_comment_count :
    (∀ (st : Store) (ops : List Op), CommentCountInv st → Admissible st ops →
      CommentCountInv (run st ops)) ∧
    (∀ (st : Store) (iid u b : String),
      (addComment st iid u b).2.comments = st.comments ++
        [{ id := st.nextCommentId, issue_id := iid, user := u, body := b,
           created_at := st.clock }] ∧
      countComments (addComment st iid u b).2 iid = countComments st iid + 1 ∧
      List.Forall₂ (fun r r2 =>
        (r.id = iid → r2.comment_count = r.comment_count + 1) ∧
        (r.id ≠ iid → r2 = r)) st.issues (addComment st iid u b).2.issues) := by
  constructor
  · intro st ops
    induction ops generalizing st with
    | nil => intro h _; exact h
    | cons op ops ih =>
      intro h hadm
      exact ih (step st op) (inv_step st op h hadm.1) hadm.2
  · intro st iid u b
    refine ⟨rfl, countComments_addComment_same st iid u b, ?_⟩
    have : (addComment st iid u b).2.issues = st.issues.map fun r =>
        if r.id = iid then { r with comment_count := r.comment_count + 1 } else r := rfl
    rw [this, List.forall₂_map_right_iff]
    refine List.forall₂_same.mpr fun r _ => ?_
    by_cases hid : r.id = iid <;> simp [hid]

/-- C5 witness: a two-operation admissible trace (create then comment) from
the empty store, with the invariant holding before and after. -/
theorem C5_comment_count_witness :
    CommentCountInv emptyStore ∧
    Admissible emptyStore [Op.create "i1" "p" "T" "" "task" "medium" [] [],
      Op.comment "i1" "alice" "x"] ∧
    CommentCountInv (run emptyStore [Op.create "i1" "p" "T" "" "task" "medium" [] [],
      Op.comment "i1" "alice" "x"]) := by
  have h1 : CommentCountInv emptyStore := fun r hr => nomatch hr
  have h2 : Admissible emptyStore [Op.create "i1" "p" "T" "" "task" "medium" [] [],
      Op.comment "i1" "alice" "x"] := by
    show ((∀ r ∈ emptyStore.issues, r.id ≠ "i1") ∧
        (∀ c ∈ emptyStore.comments, c.issue_id ≠ "i1")) ∧ True ∧ True
    exact ⟨⟨fun r hr => (nomatch hr), fun c hc => (nomatch hc)⟩, trivial, trivial⟩
  exact ⟨h1, h2, C5_comment_count.1 emptyStore _ h1 h2⟩

/-- C9: under the well-formedness every reachable store has (comment rows
inserted at strictly increasing times), `get_comments` returns exactly the
comments whose `issue_id` matches, in stored (insertion) order, and that
order is ascending in creation time; consequently two successive `comment`
calls against the same issue come back in insertion order, appended after
the existing comments. -/
theorem C9_get_comments_order :
    (∀ (st : Store) (iid : String), CommentsWf st →
      getComments st iid =
        (st.comments.filter fun c => c.issue_id = iid).map
          (fun c => { id := c.id, user := c.user, body := c.body,
                      created_at := c.created_at }) ∧
      List.Pairwise (fun a b => a.created_at ≤ b.created_at) (getComments st iid)) ∧
    (∀ (st : Store) (iid u1 b1 u2 b2 : String), CommentsWf st →
      getComments (addComment (addComment st iid u1 b1).2 iid u2 b2).2 iid =
        getComments st iid ++
          [{ id := st.nextCommentId, user := u1, body := b1, created_at := st.clock },
           { id := st.nextCommentId + 1, user := u2, body := b2,
             created_at := st.clock + 1 }]) := by
  constructor
  · intro st iid hwf
    refine ⟨getComments_eq_filter st iid hwf, ?_⟩
    rw [getComments_eq_filter st iid hwf]
    exact ((List.Pairwise.filter _ hwf.1).map _
      fun a b hab => Nat.le_of_lt hab)
  · intro st iid u1 b1 u2 b2 hwf
    have hwf1 := commentsWf_addComment st iid u1 b1 hwf
    rw [getComments_addComment _ iid u2 b2 hwf1, getComments_addComment st iid u1 b1 hwf]
    have h1 : (addComment st iid u1 b1).2.nextCommentId = st.nextCommentId + 1 := rfl
    have h2 : (addComment st iid u1 b1).2.clock = st.clock + 1 := rfl
    rw [h1, h2, List.append_assoc]
    rfl

/-- C9 witness: two comments on issue id `"i"` from the empty store come
back in insertion order with ascending timestamps. -/
theorem C9_get_comments_order_witness :
    CommentsWf emptyStore ∧
    getComments (addComment (addComment emptyStore "i" "alice" "x").2 "i" "bob" "y").2 "i" =
      [{ id := 1, user := "alice", body := "x", created_at := 0 },
       { id := 2, user := "bob", body := "y", created_at := 1 }] := by
  have hwf : CommentsWf emptyStore :=
    show List.Pairwise (fun a b => a.created_at < b.created_at) emptyStore.comments ∧
        ∀ c ∈ emptyStore.comments, c.created_at < emptyStore.clock from
      ⟨by decide, by decide⟩
  refine ⟨hwf, ?_⟩
  rw [C9_get_comments_order.2 emptyStore "i" "alice" "x" "bob" "y" hwf]
  rfl

/-- C10: a `comment` call against an issue id matching no stored issue
still inserts the comment row and returns its fresh auto-increment id, a
subsequent `get_comments` for that id returns the new comment, and the
issues table is completely unchanged — no `comment_count` moves. -/
theorem C10_comment_nonexistent_issue (st : Store) (iid u b : String)
    (hno : ∀ r ∈ st.issues, r.id ≠ iid) (hwf : CommentsWf st) :
    (addComment st iid u b).1 = st.nextCommentId ∧
    (addComment st iid u b).2.issues = st.issues ∧
    (addComment st iid u b).2.comments = st.comments ++
      [{ id := st.nextCommentId, issue_id := iid, user := u, body := b,
         created_at := st.clock }] ∧
    getComments (addComment st iid u b).2 iid =
      getComments st iid ++
        [{ id := st.nextCommentId, user := u, body := b, created_at := st.clock }] := by
  refine ⟨rfl, ?_, rfl, getComments_addComment st iid u b hwf⟩
  have hmap : (addComment st iid u b).2.issues = st.issues.map fun r =>
      if r.id = iid then { r with comment_count := r.comment_count + 1 } else r := rfl
  rw [hmap, List.map_congr_left fun r hr => if_neg (hno r hr)]
  simp

/-- C10 witness: commenting on the unknown id `"zzz"` in a three-issue
store returns comment id 1, leaves the rows unchanged, and `get_comments`
then returns exactly that comment. -/
theorem C10_comment_nonexistent_issue_witness :
    (∀ r ∈ exThreePlain.issues, r.id ≠ "zzz") ∧
    (addComment exThreePlain "zzz" "u" "B").1 = exThreePlain.nextCommentId ∧
    (addComment exThreePlain "zzz" "u" "B").2.issues = exThreePlain.issues := by
  have hwf : CommentsWf exThreePlain :=
    show List.Pairwise (fun a b => a.created_at < b.created_at) exThreePlain.comments ∧
        ∀ c ∈ exThreePlain.comments, c.created_at < exThreePlain.clock from
      ⟨by decide, by decide⟩
  have h := C10_comment_nonexistent_issue exThreePlain "zzz" "u" "B" (by decide) hwf
  exact ⟨by decide, h.1, h.2.1⟩

theorem jsonDumps_ne_empty (l : List String) : jsonDumps l ≠ "" := by
  intro h
  have hd : (jsonDumps l).data = [] := by rw [h]
  cases l with
  | nil => exact absurd hd (by decide)
  | cons s t => rw [jsonDumps_data_cons] at hd; cases hd

theorem forall₂_mem_left {α β : Type} {R : α → β → Prop} :
    ∀ {l1 : List α} {l2 : List β}, List.Forall₂ R l1 l2 →
      ∀ a ∈ l1, ∃ b ∈ l2, R a b := by
  intro l1 l2 h
  induction h with
  | nil => intro a ha; cases ha
  | cons hr _ ih =>
    intro a ha
    rcases List.mem_cons.mp ha with ha | ha
    · subst ha; exact ⟨_, by simp, hr⟩
    · rcases ih a ha with ⟨b, hb, hab⟩
      exact ⟨b, by simp [hb], hab⟩

theorem optGuard_iff (o : Option String) (g : String → Bool) :
    ((match o with | some s => g s | Option.none => true) = true) ↔
      ∀ s, o = some s → g s = true := by
  cases o <;> simp

theorem rowMatches_iff (pid : String) (f : Filters) (r : IssueRow) :
    rowMatches pid f r = true ↔
      (r.project_id = pid ∧
       (∀ s, f.status = some s → r.status = s) ∧
       (∀ s, f.priority = some s → r.priority = s) ∧
       (∀ s, f.assignee = some s → sqliteLike ("%" ++ s ++ "%") r.assignees = true) ∧
       (∀ s, f.label = some s → sqliteLike ("%" ++ s ++ "%") r.labels = true) ∧
       (∀ s, f.cycle_id = some s → r.cycle_id = some s)) := by
  unfold rowMatches
  simp only [Bool.and_eq_true, optGuard_iff, decide_eq_true_eq]
  tauto

/-- C8: the serialize/deserialize pair on string lists is the identity —
`json.loads` of `json.dumps` returns the very list, preserving order,
duplicates and exact characters — so the assignee and label lists a
`create` stores are read back unchanged by `get`, with no normalization,
deduplication, or case-folding.  The last conjunct reads a created issue
back through `get` on a concrete store. -/
theorem C8_lists_round_trip :
    (∀ l : List String, jsonLoads (jsonDumps l) = some l) ∧
    (∀ (st : Store) (i p t d ty pr : String) (as ls : List String),
      ((createIssue st i p t d ty pr as ls).2.issues.map
          fun r => (jsonLoads r.assignees, jsonLoads r.labels)) =
        (st.issues.map fun r => (jsonLoads r.assignees, jsonLoads r.labels)) ++
          [(some as, some ls)]) ∧
    (∀ (st : Store) (i p t d ty pr : String) (as ls : List String),
      ∃ r : IssueRow, (createIssue st i p t d ty pr as ls).2.issues = st.issues ++ [r] ∧
        (rowToIssue r).map (fun x => (x.assignees, x.labels)) = some (as, ls)) ∧
    ((getIssues (createIssue emptyStore "i1" "p1" "Safari bug" "" "bug" "high"
        ["alice"] ["browser"]).2 "p1" {}).map
      fun L => L.map fun x => (x.assignees, x.labels)) =
      some [(["alice"], ["browser"])] := by
  refine ⟨jsonLoads_jsonDumps, ?_, ?_, by decide⟩
  · intro st i p t d ty pr as ls
    simp [createIssue, jsonLoads_jsonDumps]
  · intro st i p t d ty pr as ls
    refine ⟨_, rfl, ?_⟩
    unfold rowToIssue
    simp only
    rw [if_neg (jsonDumps_ne_empty as), if_neg (jsonDumps_ne_empty ls),
      jsonLoads_jsonDumps, jsonLoads_jsonDumps]
    rfl

/-- C4 counterexample: the spec describes the assignee filter as plain
substring containment of the filter string in the serialized list, but
SQLite's `LIKE` is ASCII-case-insensitive: filtering for `"ALICE"` returns
the issue whose stored assignee text is the serialization of `["alice"]`,
even though `"ALICE"` occurs nowhere in that text. -/
theorem C4_substring_counterexample :
    (exAlice.issues.map fun r => r.assignees) = [jsonDumps ["alice"]] ∧
    ((getIssues exAlice "p" { assignee := some "ALICE" }).map
      fun L => L.map fun i => i.id) = some ["a"] ∧
    specSubstrContains (jsonDumps ["alice"]) "ALICE" = false := by
  refine ⟨by decide, by decide, by decide⟩

/-- C4 (amended): `get` returns exactly the issues of the project that pass
every supplied filter, AND-ed independently — status, priority and
cycle_id by exact equality, assignee and label by SQLite `LIKE`
containment of the filter string in the serialized list text (an
ASCII-case-insensitive substring test, with `%`/`_` in the filter acting
as wildcards).  The second conjunct runs the spec's example: filtering for
assignee `"alice"` returns the issue assigned to alice and excludes the
one assigned only to bob. -/
theorem C4_get_issues_filters :
    (∀ (st : Store) (pid : String) (f : Filters) (L : List Issue),
      getIssues st pid f = some L →
      ∀ i, i ∈ L ↔ ∃ r ∈ st.issues, rowToIssue r = some i ∧
        r.project_id = pid ∧
        (∀ s, f.status = some s → r.status = s) ∧
        (∀ s, f.priority = some s → r.priority = s) ∧
        (∀ s, f.assignee = some s → sqliteLike ("%" ++ s ++ "%") r.assignees = true) ∧
        (∀ s, f.label = some s → sqliteLike ("%" ++ s ++ "%") r.labels = true) ∧
        (∀ s, f.cycle_id = some s → r.cycle_id = some s)) ∧
    ((getIssues exAliceBob "p" { assignee := some "alice" }).map
      fun L => L.map fun i => i.id) = some ["a"] := by
  refine ⟨?_, by decide⟩
  intro st pid f L h i
  have hf2 := (mapM_option_some_iff _ _ _).mp h
  constructor
  · intro hi
    rcases forall₂_mem_right hf2 i hi with ⟨r, hr, hconv⟩
    have hm := List.mem_filter.mp hr
    rcases (rowMatches_iff pid f r).mp hm.2 with ⟨h1, h2, h3, h4, h5, h6⟩
    exact ⟨r, hm.1, hconv, h1, h2, h3, h4, h5, h6⟩
  · rintro ⟨r, hr, hconv, h1, h2, h3, h4, h5, h6⟩
    have hmem : r ∈ st.issues.filter (rowMatches pid f) :=
      List.mem_filter.mpr ⟨hr, (rowMatches_iff pid f r).mpr ⟨h1, h2, h3, h4, h5, h6⟩⟩
    rcases forall₂_mem_left hf2 r hmem with ⟨b, hb, hconv2⟩
    rw [hconv] at hconv2
    injection hconv2 with e
    rw [e]
    exact hb

/-- C4 witness: the filter characterization applied to a concrete store
and result — the case-insensitively matched issue is a member, and indeed
a stored row converts to it and passes the `LIKE` test. -/
theorem C4_get_issues_filters_witness :
    getIssues exAlice "p" { assignee := some "ALICE" } = some [exAliceIssue] ∧
    (exAliceIssue ∈ [exAliceIssue] ↔ ∃ r ∈ exAlice.issues,
      rowToIssue r = some exAliceIssue ∧
      r.project_id = "p" ∧
      (∀ s, ({ assignee := some "ALICE" } : Filters).status = some s → r.status = s) ∧
      (∀ s, ({ assignee := some "ALICE" } : Filters).priority = some s → r.priority = s) ∧
      (∀ s, ({ assignee := some "ALICE" } : Filters).assignee = some s →
        sqliteLike ("%" ++ s ++ "%") r.assignees = true) ∧
      (∀ s, ({ assignee := some "ALICE" } : Filters).label = some s →
        sqliteLike ("%" ++ s ++ "%") r.labels = true) ∧
      (∀ s, ({ assignee := some "ALICE" } : Filters).cycle_id = some s →
        r.cycle_id = some s)) :=
  ⟨by decide,
    C4_get_issues_filters.1 exAlice "p" { assignee := some "ALICE" } [exAliceIssue]
      (by decide) exAliceIssue⟩

end IssueTracker
